import Mathlib

/-!
# OBJLoader::ParseFile

A shallow embedding of `Code/Engine/Core/OBJLoader.cpp` and the properties of its
decode-and-triangulate pipeline.

Conventions of the embedding

* `std::vector` is `List`; `push_back x` is `xs ++ [x]`, `insert(end, ...)` is `++`.
* The text of the file (what `FileReadToString` delivers) is a `List Char`.
* `float` is an arbitrary type `F`: the loader only moves float values around, and
  the arithmetic it needs (transforms, subtraction, cross product, normalisation)
  lives in `Engine/Math`, outside this file; it is taken as the record
  `Collaborators`.
* `int` counters are `Int`, sizes and `unsigned int` indices are `Nat`; buffers are
  taken to be shorter than `2^31`, where the casts `(unsigned int)` and `(int)` of
  the source keep the value.
* Indexing a vector outside its bounds (`operator[]`) is undefined behaviour in the
  source; the embedding returns `none` there, so `ParseFile ... = some out` means
  that the call ran without such an access and returned `out`.
-/

set_option autoImplicit false

namespace OBJLoader

variable {F M : Type}

/-! ## Data model -/

/-- Two floats (`Vec2`). -/
structure Vec2 (F : Type) where
  x : F
  y : F
deriving DecidableEq, Repr

/-- Three floats (`Vec3`). -/
structure Vec3 (F : Type) where
  x : F
  y : F
  z : F
deriving DecidableEq, Repr

/-- Four colour bytes (`Rgba8`). -/
structure Rgba8 where
  r : Nat
  g : Nat
  b : Nat
  a : Nat
deriving DecidableEq, Repr

/-- Modelled from the spec: the constant `Rgba8::WHITE` is declared outside this file;
the spec calls it "opaque white". -/
def Rgba8.WHITE : Rgba8 := ⟨255, 255, 255, 255⟩

/-- The vertex record, with the four fields the constructor
`Vertex_PCUTBN(position, normal, color, uv)` receives. The loader never touches the
tangent and bitangent of the record. -/
structure Vertex_PCUTBN (F : Type) where
  m_position : Vec3 F
  m_normal : Vec3 F
  m_color : Rgba8
  m_uvTexCoords : Vec2 F
deriving DecidableEq, Repr

/-- The metadata sink `OBJLoaderMetaData`. -/
structure OBJLoaderMetaData (F : Type) where
  m_numPositions : Int
  m_numUVs : Int
  m_numNormals : Int
  m_numFaces : Int
  m_numTriangles : Int
  m_numVertices : Int
  m_numIndices : Int
  m_totalParseAndLoadTime : F
deriving DecidableEq, Repr

/-- The collaborators of `ParseFile` that live outside `OBJLoader.cpp`, for a float
type `F` and a matrix type `M` (`Mat44`).

* `zero`, `one`: the literals `0.0f` and `1.0f`;
* `readVec3 s`: the value of a default-constructed `Vec3` after
  `lineSS >> v.x >> v.y >> v.z`, where `s` is what is left in the line's stream
  after its first word; `readVec2 s` likewise for `lineSS >> v.x >> v.y`;
* `TransformPosition3D`, `GetIBasis3D`, `GetJBasis3D`, `GetKBasis3D`,
  `TransformVectorQuantity3D`: the `Mat44` methods; `mkMat44 i j k t` the
  constructor `Mat44(i, j, k, t)`;
* `Normalize v`: the value of `v` after `v.Normalize()`;
* `sub`: `Vec3::operator-`; `CrossProduct3D`; `GetNormalized`: `Vec3::GetNormalized`;
* `elapsed`: `float(parseEndTime - parseStartTime)`, from the wall clock. -/
structure Collaborators (F M : Type) where
  zero : F
  one : F
  readVec3 : List Char → Vec3 F
  readVec2 : List Char → Vec2 F
  TransformPosition3D : M → Vec3 F → Vec3 F
  GetIBasis3D : M → Vec3 F
  GetJBasis3D : M → Vec3 F
  GetKBasis3D : M → Vec3 F
  Normalize : Vec3 F → Vec3 F
  mkMat44 : Vec3 F → Vec3 F → Vec3 F → Vec3 F → M
  TransformVectorQuantity3D : M → Vec3 F → Vec3 F
  sub : Vec3 F → Vec3 F → Vec3 F
  CrossProduct3D : Vec3 F → Vec3 F → Vec3 F
  GetNormalized : Vec3 F → Vec3 F
  elapsed : F

/-! ## Text primitives of the standard library -/

/-- The whitespace of `std::isspace` in the C locale. -/
def isSpace (c : Char) : Bool :=
  c = ' ' || c = '\t' || c = '\n' || c = '\x0b' || c = '\x0c' || c = '\r'

/-- The lines `std::getline(iss, line)` delivers, one after the other, until it
fails: the text is cut at every `'\n'`, and what follows the last `'\n'` is a line
only when it is not empty. -/
def getLines : List Char → List (List Char)
  | [] => []
  | c :: cs =>
    if c = '\n' then [] :: getLines cs
    else
      match getLines cs with
      | [] => [[c]]
      | l :: ls => (c :: l) :: ls

/-- The stream extraction `lineSS >> word` of a `std::string`: leading whitespace is
skipped, the word runs up to the next whitespace, and the stream keeps what follows.
The word is empty exactly when the extraction fails (nothing but whitespace left),
in which case the source's string keeps its initial empty value. -/
def extractWord (s : List Char) : List Char × List Char :=
  ((s.dropWhile isSpace).takeWhile (fun c => !isSpace c),
   (s.dropWhile isSpace).dropWhile (fun c => !isSpace c))

/-- The words that `while (lineSS >> indicesChunk)` reads from what is left of a
line: its maximal runs of non-whitespace characters, in order. -/
def readChunks : List Char → List (List Char)
  | [] => []
  | c :: cs =>
    if isSpace c then readChunks cs
    else
      match cs with
      | [] => [[c]]
      | d :: _ =>
        if isSpace d then [c] :: readChunks cs
        else
          match readChunks cs with
          | [] => [[c]]
          | w :: ws => (c :: w) :: ws

/-- The decimal digits `atoi` reads from the front of a string, onto `acc`. -/
def atoiDigits : Nat → List Char → Nat
  | acc, [] => acc
  | acc, c :: cs =>
    if c.isDigit then atoiDigits (acc * 10 + (c.toNat - 48)) cs else acc

/-- The C function `atoi`: optional whitespace, an optional sign, then digits up to
the first character that is not one; `0` when there is no digit. The value is taken
to fit an `int`. -/
def atoi (s : List Char) : Int :=
  match s.dropWhile isSpace with
  | '-' :: cs => - (atoiDigits 0 cs : Int)
  | '+' :: cs => (atoiDigits 0 cs : Int)
  | cs => (atoiDigits 0 cs : Int)

/-- Modelled from the spec: `SplitStringOnDelimeter` is declared outside this file;
the spec has each index group "split on `/`" into its fields, an omitted field
(`p//n`) being a field of its own, so the pieces between the delimiters are kept
in order, empty ones included. -/
def SplitStringOnDelimeter : List Char → Char → List (List Char)
  | [], _ => [[]]
  | c :: cs, d =>
    if c = d then [] :: SplitStringOnDelimeter cs d
    else
      match SplitStringOnDelimeter cs d with
      | [] => [[c]]
      | w :: ws => (c :: w) :: ws

/-! ## The parse loop -/

/-- The local variables of `ParseFile` that live across lines, with the two output
buffers and the metadata sink (`none` for a null `out_metaData`). -/
structure LoopState (F : Type) where
  vertexPosList : List (Vec3 F)
  vertexUVList : List (Vec2 F)
  vertexNormalList : List (Vec3 F)
  hasNoFaces : Bool
  hasNoNormals : Bool
  numFacesCounter : Int
  numTrianglesCounter : Int
  out_vertices : List (Vertex_PCUTBN F)
  out_indices : List Nat
  out_metaData : Option (OBJLoaderMetaData F)
deriving DecidableEq, Repr

/-- The three indices `posIndex`, `uvIndex`, `normalIndex` of one index group: `-1`
to begin with, and `atoi(field) - 1` for each of the first three fields the split on
`'/'` gives. -/
def indexGroup (indicesChunk : List Char) : Int × Int × Int :=
  let splitIndexStrings := SplitStringOnDelimeter indicesChunk '/'
  let posIndex : Int :=
    if splitIndexStrings.length > 0 then atoi (splitIndexStrings.getD 0 []) - 1 else -1
  let uvIndex : Int :=
    if splitIndexStrings.length > 1 then atoi (splitIndexStrings.getD 1 []) - 1 else -1
  let normalIndex : Int :=
    if splitIndexStrings.length > 2 then atoi (splitIndexStrings.getD 2 []) - 1 else -1
  (posIndex, uvIndex, normalIndex)

/-- The read `(index >= 0) ? list[index] : dflt`; `none` when `index` is beyond the
end of the list. -/
def lookupOr {α : Type} (list : List α) (index : Int) (dflt : α) : Option α :=
  if index ≥ 0 then list[index.toNat]? else some dflt

/-- The vertex one index group resolves to, from the three attribute lists as they
stand when the face line is read. -/
def resolveCorner {F M : Type} (C : Collaborators F M) (st : LoopState F)
    (indicesChunk : List Char) : Option (Vertex_PCUTBN F) :=
  match lookupOr st.vertexPosList (indexGroup indicesChunk).1 ⟨C.zero, C.zero, C.zero⟩,
        lookupOr st.vertexUVList (indexGroup indicesChunk).2.1 ⟨C.zero, C.zero⟩,
        lookupOr st.vertexNormalList (indexGroup indicesChunk).2.2 ⟨C.one, C.zero, C.zero⟩ with
  | some vertexPos, some vertexUV, some vertexNormal =>
    some ⟨vertexPos, vertexNormal, Rgba8.WHITE, vertexUV⟩
  | _, _, _ => none

/-- The loop `while (lineSS >> indicesChunk)` of a face line: every index group adds
its vertex to `vertexCandidatesForThisFace` and the index
`out_vertices.size() + vertexCandidatesForThisFace.size()` to
`indexCandidatesForThisFace`. -/
def collectCandidates {F M : Type} (C : Collaborators F M) (st : LoopState F) :
    List (List Char) → List (Vertex_PCUTBN F) × List Nat →
      Option (List (Vertex_PCUTBN F) × List Nat)
  | [], candidates => some candidates
  | indicesChunk :: chunks, (vertexCandidates, indexCandidates) =>
    match resolveCorner C st indicesChunk with
    | none => none
    | some vertex =>
      collectCandidates C st chunks
        (vertexCandidates ++ [vertex],
         indexCandidates ++ [st.out_vertices.length + vertexCandidates.length])

/-- The loop `for (indexOffset = 1; indexOffset < size - 1; indexOffset++)` of an
n-gon, with `remaining` the number of iterations that are left: each one appends
the candidates `0`, `indexOffset`, `indexOffset + 1`, each with the index
`out_vertices.size()` of that moment, and counts one triangle. -/
def fanLoop {F : Type} (vertexCandidates : List (Vertex_PCUTBN F)) :
    Nat → Nat → LoopState F → Option (LoopState F)
  | 0, _, st => some st
  | remaining + 1, indexOffset, st =>
    match vertexCandidates[0]?, vertexCandidates[indexOffset]?,
          vertexCandidates[indexOffset + 1]? with
    | some first, some second, some third =>
      fanLoop vertexCandidates remaining (indexOffset + 1)
        { st with
          out_indices := st.out_indices ++
            [st.out_vertices.length, st.out_vertices.length + 1, st.out_vertices.length + 2]
          out_vertices := st.out_vertices ++ [first, second, third]
          numTrianglesCounter := st.numTrianglesCounter + 1 }
    | _, _, _ => none

/-- The branch `firstWord == "f"`, on what is left of the line after its first
word. -/
def processFace {F M : Type} (C : Collaborators F M) (st : LoopState F)
    (lineSS : List Char) : Option (LoopState F) :=
  let st1 : LoopState F :=
    { st with
      hasNoFaces := false
      numFacesCounter := st.numFacesCounter + 1
      numTrianglesCounter := st.numTrianglesCounter + 1 }
  match collectCandidates C st1 (readChunks lineSS) ([], []) with
  | none => none
  | some (vertexCandidates, indexCandidates) =>
    let triangulated : Option (LoopState F) :=
      if vertexCandidates.length > 3 then
        (fanLoop vertexCandidates (vertexCandidates.length - 1 - 1) 1 st1).map
          (fun st2 => { st2 with numTrianglesCounter := st2.numTrianglesCounter - 1 })
      else
        some { st1 with
          out_indices := st1.out_indices ++ indexCandidates
          out_vertices := st1.out_vertices ++ vertexCandidates }
    triangulated.map (fun st3 =>
      { st3 with
        out_metaData := st3.out_metaData.map
          (fun metaData => { metaData with m_numFaces := metaData.m_numFaces + 1 }) })

/-- The normal a `vn` record stores: the raw normal through the matrix built from
the three normalised basis vectors of `transform` and a zero translation. -/
def transformNormal {F M : Type} (C : Collaborators F M) (transform : M)
    (vertexNormal : Vec3 F) : Vec3 F :=
  C.TransformVectorQuantity3D
    (C.mkMat44 (C.Normalize (C.GetIBasis3D transform)) (C.Normalize (C.GetJBasis3D transform))
      (C.Normalize (C.GetKBasis3D transform)) ⟨C.zero, C.zero, C.zero⟩)
    vertexNormal

/-- One turn of `while (std::getline(iss, line))`: the dispatch on the first word of
the line. -/
def processLine {F M : Type} (C : Collaborators F M) (transform : M) (st : LoopState F)
    (line : List Char) : Option (LoopState F) :=
  if (extractWord line).1 = ['v'] then
    some { st with
      vertexPosList := st.vertexPosList ++
        [C.TransformPosition3D transform (C.readVec3 (extractWord line).2)] }
  else if (extractWord line).1 = ['v', 't'] then
    some { st with vertexUVList := st.vertexUVList ++ [C.readVec2 (extractWord line).2] }
  else if (extractWord line).1 = ['v', 'n'] then
    some { st with
      hasNoNormals := false
      vertexNormalList := st.vertexNormalList ++
        [transformNormal C transform (C.readVec3 (extractWord line).2)] }
  else if (extractWord line).1 = ['f'] then
    processFace C st (extractWord line).2
  else
    some st

/-- The whole `while (std::getline(iss, line))` loop over the lines of the file. -/
def runLines {F M : Type} (C : Collaborators F M) (transform : M) :
    LoopState F → List (List Char) → Option (LoopState F)
  | st, [] => some st
  | st, line :: lines =>
    match processLine C transform st line with
    | none => none
    | some st1 => runLines C transform st1 lines

/-! ## The post-pass fixups and `ParseFile` -/

/-- The loop of `if (hasNoFaces)`: one vertex and one index per stored position. -/
def pointList {F M : Type} (C : Collaborators F M) :
    List (Vec3 F) → List (Vertex_PCUTBN F) × List Nat → List (Vertex_PCUTBN F) × List Nat
  | [], buffers => buffers
  | position :: positions, (out_vertices, out_indices) =>
    pointList C positions
      (out_vertices ++ [⟨position, ⟨C.one, C.zero, C.zero⟩, Rgba8.WHITE, ⟨C.zero, C.zero⟩⟩],
       out_indices ++ [out_vertices.length])

/-- The loop of `if (hasNoNormals)`, `for (i = 0; i < out_vertices.size(); i += 3)`:
the vertices `i`, `i + 1`, `i + 2` get the normal of their triangle. With one or two
vertices left, `out_vertices[i + 1]` or `out_vertices[i + 2]` is beyond the end of
the vector: `none`. -/
def flatNormals {F M : Type} (C : Collaborators F M) :
    List (Vertex_PCUTBN F) → Option (List (Vertex_PCUTBN F))
  | [] => some []
  | first :: second :: third :: vertices =>
    let normal : Vec3 F :=
      C.GetNormalized
        (C.CrossProduct3D (C.sub second.m_position first.m_position)
          (C.sub third.m_position second.m_position))
    (flatNormals C vertices).map (fun fixed =>
      { first with m_normal := normal } :: { second with m_normal := normal } ::
        { third with m_normal := normal } :: fixed)
  | _ => none

/-- What `ParseFile` leaves to its caller: the two buffers and the sink. -/
structure Output (F : Type) where
  out_vertices : List (Vertex_PCUTBN F)
  out_indices : List Nat
  out_metaData : Option (OBJLoaderMetaData F)
deriving DecidableEq, Repr

/-- The state `ParseFile` enters its loop with. -/
def initialState {F : Type} (out_vertices : List (Vertex_PCUTBN F)) (out_indices : List Nat)
    (out_metaData : Option (OBJLoaderMetaData F)) : LoopState F :=
  { vertexPosList := []
    vertexUVList := []
    vertexNormalList := []
    hasNoFaces := true
    hasNoNormals := true
    numFacesCounter := 0
    numTrianglesCounter := 0
    out_vertices := out_vertices
    out_indices := out_indices
    out_metaData := out_metaData }

/-- The block `if (hasNoFaces)`: the two buffers after it. -/
def noFacesFallback (C : Collaborators F M) (st : LoopState F) :
    List (Vertex_PCUTBN F) × List Nat :=
  if st.hasNoFaces then pointList C st.vertexPosList (st.out_vertices, st.out_indices)
  else (st.out_vertices, st.out_indices)

/-- The block `if (hasNoNormals)`, on the vertex buffer the block before it leaves. -/
def noNormalsFallback (C : Collaborators F M) (st : LoopState F)
    (out_vertices : List (Vertex_PCUTBN F)) : Option (List (Vertex_PCUTBN F)) :=
  if st.hasNoNormals then flatNormals C out_vertices else some out_vertices

/-- What follows the loop: the two fixups and the write of the metadata. -/
def finish (C : Collaborators F M) (st : LoopState F) : Option (Output F) :=
  (noNormalsFallback C st (noFacesFallback C st).1).map (fun vertices =>
    { out_vertices := vertices
      out_indices := (noFacesFallback C st).2
      out_metaData := st.out_metaData.map (fun metaData =>
        { metaData with
          m_numPositions := st.vertexPosList.length
          m_numUVs := st.vertexUVList.length
          m_numNormals := st.vertexNormalList.length
          m_numFaces := st.numFacesCounter
          m_numTriangles := st.numTrianglesCounter
          m_numVertices := vertices.length
          m_numIndices := (noFacesFallback C st).2.length
          m_totalParseAndLoadTime := C.elapsed }) })

/-- `OBJLoader::ParseFile`, on the text of the file. -/
def ParseFile {F M : Type} (C : Collaborators F M) (fileString : List Char) (transform : M)
    (out_vertices : List (Vertex_PCUTBN F)) (out_indices : List Nat)
    (out_metaData : Option (OBJLoaderMetaData F)) : Option (Output F) :=
  match runLines C transform (initialState out_vertices out_indices out_metaData)
      (getLines fileString) with
  | none => none
  | some st => finish C st

/-! ## Vocabulary of the properties -/

/-- The first word of `line` is exactly `tag`: the test of the dispatch. -/
def isRecord (tag : List Char) (line : List Char) : Bool :=
  decide ((extractWord line).1 = tag)

/-- Number of records with tag `tag` in the text of a file. -/
def countRecords (tag : List Char) (fileString : List Char) : Nat :=
  ((getLines fileString).filter (isRecord tag)).length

/-- The index groups (corners) of a face line. -/
def faceChunks (line : List Char) : List (List Char) :=
  readChunks (extractWord line).2

/-- The first word of the line is none of `v`, `vt`, `vn`, `f`. -/
def isSkipped (line : List Char) : Bool :=
  !isRecord ['v'] line && !isRecord ['v', 't'] line && !isRecord ['v', 'n'] line &&
    !isRecord ['f'] line

/-- Every index an index group holds is below the number of records of its kind:
`numPos`, `numUV`, `numNormal` are the lengths of the three lists when the group is
read. An index below zero stands for no reference and is not looked up. -/
def cornerInRange (numPos numUV numNormal : Nat) (indicesChunk : List Char) : Bool :=
  decide ((indexGroup indicesChunk).1 < (numPos : Int)) &&
    decide ((indexGroup indicesChunk).2.1 < (numUV : Int)) &&
    decide ((indexGroup indicesChunk).2.2 < (numNormal : Int))

/-- Every face line of `lines` refers only to records that precede it, where
`numPos`, `numUV`, `numNormal` records precede the first line. -/
def refsInRange : Nat → Nat → Nat → List (List Char) → Bool
  | _, _, _, [] => true
  | numPos, numUV, numNormal, line :: lines =>
    if isRecord ['v'] line then refsInRange (numPos + 1) numUV numNormal lines
    else if isRecord ['v', 't'] line then refsInRange numPos (numUV + 1) numNormal lines
    else if isRecord ['v', 'n'] line then refsInRange numPos numUV (numNormal + 1) lines
    else if isRecord ['f'] line then
      (faceChunks line).all (cornerInRange numPos numUV numNormal) &&
        refsInRange numPos numUV numNormal lines
    else refsInRange numPos numUV numNormal lines

/-- The vertices the index groups of a face resolve to, in corner order; `none` when
one of them looks up a record that is not there. -/
def resolveAll {F M : Type} (C : Collaborators F M) (st : LoopState F) :
    List (List Char) → Option (List (Vertex_PCUTBN F))
  | [] => some []
  | indicesChunk :: chunks =>
    match resolveCorner C st indicesChunk, resolveAll C st chunks with
    | some vertex, some vertices => some (vertex :: vertices)
    | _, _ => none

/-- The fan around `first` over the corners that follow it: the triangles
`(first, a, b)` for every two neighbours `a`, `b`. -/
def fanFrom {α : Type} (first : α) : List α → List α
  | a :: b :: rest => first :: a :: b :: fanFrom first (b :: rest)
  | _ => []

/-- The vertices a face with the resolved corners `candidates` appends: the fan for
more than three corners, the corners themselves otherwise. -/
def expandFace {α : Type} (candidates : List α) : List α :=
  if candidates.length > 3 then
    match candidates with
    | [] => []
    | first :: rest => fanFrom first rest
  else candidates

/-- Number of vertices (and indices) a face line with `k` corners appends. -/
def faceVertexCount (k : Nat) : Nat := if k > 3 then 3 * (k - 2) else k

/-- Number of triangles a face line with `k` corners adds to `numTrianglesCounter`. -/
def faceTriangleCount (k : Nat) : Nat := if k > 3 then k - 2 else 1

/-- Sum of `count k` over the face lines of `lines`, `k` the number of corners. -/
def sumOverFaces (count : Nat → Nat) : List (List Char) → Nat
  | [] => 0
  | line :: lines =>
    (if isRecord ['f'] line then count (faceChunks line).length else 0) +
      sumOverFaces count lines

/-- The position a `v` line stores. -/
def storedPosition {F M : Type} (C : Collaborators F M) (transform : M) (line : List Char) :
    Vec3 F :=
  C.TransformPosition3D transform (C.readVec3 (extractWord line).2)

/-- The texture coordinate a `vt` line stores. -/
def storedUV {F M : Type} (C : Collaborators F M) (line : List Char) : Vec2 F :=
  C.readVec2 (extractWord line).2

/-- The normal a `vn` line stores. -/
def storedNormal {F M : Type} (C : Collaborators F M) (transform : M) (line : List Char) :
    Vec3 F :=
  transformNormal C transform (C.readVec3 (extractWord line).2)

/-- What a run of the loop over `lines` from `st` to `st1` has done: the three lists
have grown by the records of `lines`, the flags and counters have followed the face
and normal records, the buffers have grown by `app` and by the indices of `app`, and
the sink is there exactly when it was. -/
structure RunSummary {F M : Type} (C : Collaborators F M) (transform : M) (st : LoopState F)
    (lines : List (List Char)) (st1 : LoopState F) : Prop where
  pos : st1.vertexPosList =
    st.vertexPosList ++ (lines.filter (isRecord ['v'])).map (storedPosition C transform)
  uv : st1.vertexUVList =
    st.vertexUVList ++ (lines.filter (isRecord ['v', 't'])).map (storedUV C)
  normal : st1.vertexNormalList =
    st.vertexNormalList ++ (lines.filter (isRecord ['v', 'n'])).map (storedNormal C transform)
  noFaces : st1.hasNoFaces = (st.hasNoFaces && !lines.any (isRecord ['f']))
  noNormals : st1.hasNoNormals = (st.hasNoNormals && !lines.any (isRecord ['v', 'n']))
  faces : st1.numFacesCounter = st.numFacesCounter + ((lines.filter (isRecord ['f'])).length : Int)
  triangles : st1.numTrianglesCounter =
    st.numTrianglesCounter + (sumOverFaces faceTriangleCount lines : Int)
  appended : ∃ app, st1.out_vertices = st.out_vertices ++ app ∧
    st1.out_indices = st.out_indices ++ List.range' st.out_vertices.length app.length ∧
    app.length = sumOverFaces faceVertexCount lines
  sink : st1.out_metaData.isSome = st.out_metaData.isSome

/-- An index group as it is written in a face line: the numeral of the position, and
the numerals of the texture coordinate and of the normal when the group has them. -/
structure IndexGroupText where
  p : List Char
  t : Option (List Char)
  n : Option (List Char)
deriving DecidableEq, Repr

/-- The text of an index group: `p`, `p/t`, `p//n` or `p/t/n`. -/
def IndexGroupText.text : IndexGroupText → List Char
  | ⟨p, none, none⟩ => p
  | ⟨p, some t, none⟩ => p ++ '/' :: t
  | ⟨p, none, some n⟩ => p ++ '/' :: '/' :: n
  | ⟨p, some t, some n⟩ => p ++ '/' :: (t ++ '/' :: n)

/-- The string `s` is a decimal numeral whose value lies between `1` and `bound`. -/
def numeralWithin (bound : Nat) (s : List Char) : Bool :=
  s.all Char.isDigit && decide (1 ≤ atoiDigits 0 s) && decide (atoiDigits 0 s ≤ bound)

/-- Every field of the index group is a numeral between `1` and the number of records
of its kind: `numPos` positions, `numUV` texture coordinates, `numNormal` normals. -/
def IndexGroupText.within (numPos numUV numNormal : Nat) (g : IndexGroupText) : Bool :=
  numeralWithin numPos g.p &&
    (match g.t with
     | none => true
     | some t => numeralWithin numUV t) &&
    (match g.n with
     | none => true
     | some n => numeralWithin numNormal n)

/-- The vertex `w` is what the index group `g` stands for after the lines `pre`: the
position of the `p`-th `v` line of `pre`, the texture coordinate of the `t`-th `vt`
line or `(0, 0)` without one, the colour white and, when the group has a normal
field, the normal of the `n`-th `vn` line. -/
def Describes (C : Collaborators F M) (transform : M) (pre : List (List Char))
    (g : IndexGroupText) (w : Vertex_PCUTBN F) : Prop :=
  ((pre.filter (isRecord ['v'])).map (storedPosition C transform))[atoiDigits 0 g.p - 1]? =
      some w.m_position ∧
    (match g.t with
     | none => w.m_uvTexCoords = ⟨C.zero, C.zero⟩
     | some t =>
       ((pre.filter (isRecord ['v', 't'])).map (storedUV C))[atoiDigits 0 t - 1]? =
         some w.m_uvTexCoords) ∧
    w.m_color = Rgba8.WHITE ∧
    (match g.n with
     | none => True
     | some n =>
       ((pre.filter (isRecord ['v', 'n'])).map (storedNormal C transform))[atoiDigits 0 n - 1]? =
         some w.m_normal)

/-- The state `st` with the content of its sink, if it has one, replaced by
`metaData`. -/
def withSinkContent (metaData : OBJLoaderMetaData F) (st : LoopState F) : LoopState F :=
  { st with out_metaData := st.out_metaData.map (fun _ => metaData) }

/-! ## A concrete instance of the collaborators -/

/-- Modelled from the spec: the float reads and the vector math of `Engine/Math` are
outside this file. This instance has integer coordinates: a numeric field is read
as a decimal integer (a missing one stays zero), the transform is the identity (so
are its basis-built matrix and `Normalize` on its unit basis vectors), subtraction
and cross product are exact, and `GetNormalized` takes the sign of each component,
which is the unit vector of the same direction for the axis-aligned vectors that
the examples normalise. -/
def intCollaborators : Collaborators Int Unit where
  zero := 0
  one := 1
  readVec3 := fun s =>
    ⟨atoi ((readChunks s).getD 0 []), atoi ((readChunks s).getD 1 []),
      atoi ((readChunks s).getD 2 [])⟩
  readVec2 := fun s => ⟨atoi ((readChunks s).getD 0 []), atoi ((readChunks s).getD 1 [])⟩
  TransformPosition3D := fun _ v => v
  GetIBasis3D := fun _ => ⟨1, 0, 0⟩
  GetJBasis3D := fun _ => ⟨0, 1, 0⟩
  GetKBasis3D := fun _ => ⟨0, 0, 1⟩
  Normalize := fun v => v
  mkMat44 := fun _ _ _ _ => ()
  TransformVectorQuantity3D := fun _ v => v
  sub := fun a b => ⟨a.x - b.x, a.y - b.y, a.z - b.z⟩
  CrossProduct3D := fun a b =>
    ⟨a.y * b.z - a.z * b.y, a.z * b.x - a.x * b.z, a.x * b.y - a.y * b.x⟩
  GetNormalized := fun v => ⟨Int.sign v.x, Int.sign v.y, Int.sign v.z⟩
  elapsed := 0

/-! ## Example files -/

/-- The file of the round-trip scenario of the spec: one triangle, no normals. -/
def triangleFile : List Char :=
  "v 0 0 0\nv 1 0 0\nv 0 1 0\nf 1 2 3".toList

/-- A sink that holds values of an earlier use. -/
def staleMetaData : OBJLoaderMetaData Int :=
  ⟨7, 7, 7, 7, 7, 7, 7, 7⟩

/-- Four `v` lines, the corners of a square. -/
def quadPositions : List Char :=
  "v 0 0 0\nv 1 0 0\nv 1 1 0\nv 0 1 0\n".toList

/-- The face line of the quad scenario of the spec. -/
def quadLine : List Char :=
  "f 1 2 3 4".toList

/-- The state of the loop after the lines of `quadPositions`. -/
def quadState : LoopState Int :=
  { vertexPosList := [⟨0, 0, 0⟩, ⟨1, 0, 0⟩, ⟨1, 1, 0⟩, ⟨0, 1, 0⟩]
    vertexUVList := []
    vertexNormalList := []
    hasNoFaces := true
    hasNoNormals := true
    numFacesCounter := 0
    numTrianglesCounter := 0
    out_vertices := []
    out_indices := []
    out_metaData := none }

/-- The lines before the face of `mixedTriangleFile`: three positions, a texture
coordinate and a normal. -/
def mixedPre : List (List Char) :=
  ["v 0 0 0".toList, "v 1 0 0".toList, "v 0 1 0".toList, "vt 3 4".toList, "vn 0 0 1".toList]

/-- A face line whose corners are written `p/t/n`, `p//n` and `p/t`. -/
def mixedLine : List Char :=
  "f 1/1/1 2//1 3/1".toList

/-- A file with one triangle whose corners are written in three ways, and a comment
after it. -/
def mixedTriangleFile : List Char :=
  "v 0 0 0\nv 1 0 0\nv 0 1 0\nvt 3 4\nvn 0 0 1\nf 1/1/1 2//1 3/1\n# end\n".toList

/-- The state of the loop after the lines `mixedPre`. -/
def mixedState : LoopState Int :=
  { vertexPosList := [⟨0, 0, 0⟩, ⟨1, 0, 0⟩, ⟨0, 1, 0⟩]
    vertexUVList := [⟨3, 4⟩]
    vertexNormalList := [⟨0, 0, 1⟩]
    hasNoFaces := true
    hasNoNormals := false
    numFacesCounter := 0
    numTrianglesCounter := 0
    out_vertices := []
    out_indices := []
    out_metaData := none }

/-- What `ParseFile` returns on `triangleFile` with empty buffers and no sink. -/
def flatTriangle : Output Int :=
  { out_vertices :=
      [⟨⟨0, 0, 0⟩, ⟨0, 0, 1⟩, Rgba8.WHITE, ⟨0, 0⟩⟩,
       ⟨⟨1, 0, 0⟩, ⟨0, 0, 1⟩, Rgba8.WHITE, ⟨0, 0⟩⟩,
       ⟨⟨0, 1, 0⟩, ⟨0, 0, 1⟩, Rgba8.WHITE, ⟨0, 0⟩⟩]
    out_indices := [0, 1, 2]
    out_metaData := none }

/-- A file with one position and nothing else. -/
def onePointFile : List Char :=
  "v 0 0 0\n".toList

/-- A file with a normal record and one triangle whose corners have no normal
field. -/
def defaultNormalFile : List Char :=
  "vn 0 0 1\nv 0 0 0\nv 0 1 0\nv 1 0 0\nf 1 2 3\n".toList

/-- What `ParseFile` returns on `defaultNormalFile` with empty buffers and no sink. -/
def firstLoad : Output Int :=
  { out_vertices :=
      [⟨⟨0, 0, 0⟩, ⟨1, 0, 0⟩, Rgba8.WHITE, ⟨0, 0⟩⟩,
       ⟨⟨0, 1, 0⟩, ⟨1, 0, 0⟩, Rgba8.WHITE, ⟨0, 0⟩⟩,
       ⟨⟨1, 0, 0⟩, ⟨1, 0, 0⟩, Rgba8.WHITE, ⟨0, 0⟩⟩]
    out_indices := [0, 1, 2]
    out_metaData := none }

/-- A file whose face line has two corners, with a normal record. -/
def twoCornerFile : List Char :=
  "v 0 0 0\nv 1 0 0\nvn 0 0 1\nf 1 2\n".toList

/-- What `ParseFile` returns on `triangleFile` with empty buffers and a sink. -/
def countedTriangle : Output Int :=
  { flatTriangle with out_metaData := some ⟨3, 0, 0, 1, 1, 3, 3, 0⟩ }

/-- A file with one position and one normal record, without face lines. -/
def pointsWithNormalFile : List Char :=
  "v 0 0 0\nvn 0 0 1\n".toList

/-- The lines before the face of `fanFile`: four positions and a normal. -/
def fanPre : List (List Char) :=
  ["v 0 0 0".toList, "v 1 0 0".toList, "v 1 1 0".toList, "v 0 1 0".toList,
    "vn 0 0 1".toList]

/-- A quad whose first corner has a normal field and whose other corners have none. -/
def fanLine : List Char :=
  "f 1//1 2 3 4".toList

/-- A file with the lines `fanPre` and the face `fanLine`. -/
def fanFile : List Char :=
  "v 0 0 0\nv 1 0 0\nv 1 1 0\nv 0 1 0\nvn 0 0 1\nf 1//1 2 3 4\n".toList

/-- The state of the loop after the lines `fanPre`. -/
def fanPreState : LoopState Int :=
  { quadState with vertexNormalList := [⟨0, 0, 1⟩], hasNoNormals := false }

/-- What `ParseFile` returns on `fanFile` with empty buffers and no sink. -/
def fanOutput : Output Int :=
  { out_vertices :=
      [⟨⟨0, 0, 0⟩, ⟨0, 0, 1⟩, Rgba8.WHITE, ⟨0, 0⟩⟩,
       ⟨⟨1, 0, 0⟩, ⟨1, 0, 0⟩, Rgba8.WHITE, ⟨0, 0⟩⟩,
       ⟨⟨1, 1, 0⟩, ⟨1, 0, 0⟩, Rgba8.WHITE, ⟨0, 0⟩⟩,
       ⟨⟨0, 0, 0⟩, ⟨0, 0, 1⟩, Rgba8.WHITE, ⟨0, 0⟩⟩,
       ⟨⟨1, 1, 0⟩, ⟨1, 0, 0⟩, Rgba8.WHITE, ⟨0, 0⟩⟩,
       ⟨⟨0, 1, 0⟩, ⟨1, 0, 0⟩, Rgba8.WHITE, ⟨0, 0⟩⟩]
    out_indices := [0, 1, 2, 3, 4, 5]
    out_metaData := none }

/-- The text of the lines `lines`, each followed by a line feed. -/
def joinLines : List (List Char) → List Char
  | [] => []
  | line :: lines => line ++ '\n' :: joinLines lines

/-- The file of the round-trip scenario with a comment, a blank line, a group, a
`vp` record and a material between its lines. -/
def commentedTriangleFile : List Char :=
  "# a triangle\nv 0 0 0\n\nv 1 0 0\ng corner\nvp 1 2\nv 0 1 0\nusemtl red\nf 1 2 3".toList

/-- A file with three positions and nothing else. -/
def threePointsFile : List Char :=
  "v 0 0 0\nv 1 0 0\nv 0 1 0\n".toList

/-- What `ParseFile` returns on `threePointsFile` with empty buffers and no sink. -/
def shadedPoints : Output Int :=
  { out_vertices :=
      [⟨⟨0, 0, 0⟩, ⟨0, 0, 1⟩, Rgba8.WHITE, ⟨0, 0⟩⟩,
       ⟨⟨1, 0, 0⟩, ⟨0, 0, 1⟩, Rgba8.WHITE, ⟨0, 0⟩⟩,
       ⟨⟨0, 1, 0⟩, ⟨0, 0, 1⟩, Rgba8.WHITE, ⟨0, 0⟩⟩]
    out_indices := [0, 1, 2]
    out_metaData := none }

/-! ## The vector math, modelled -/

/-- Modelled from the spec: `Mat44` is declared in `Engine/Math`, outside this file.
The spec has "a single affine transform (4x4, homogeneous)" with "three basis column
vectors" and a translation; the record holds these four columns, as the constructor
`Mat44(iBasis, jBasis, kBasis, translation)` of the source receives them. -/
structure Mat44 (F : Type) where
  iBasis : Vec3 F
  jBasis : Vec3 F
  kBasis : Vec3 F
  translation : Vec3 F
deriving DecidableEq, Repr

/-- Modelled from the spec: the identity transform, with the unit vectors as basis and
no translation. -/
def Mat44.identity [Zero F] [One F] : Mat44 F :=
  ⟨⟨1, 0, 0⟩, ⟨0, 1, 0⟩, ⟨0, 0, 1⟩, ⟨0, 0, 0⟩⟩

/-- Modelled from the spec: `Mat44::TransformPosition3D`, "applying a 4x4 affine
transform to positions": the combination of the basis columns with the coordinates of
the point, plus the translation. -/
def Mat44.TransformPosition3D [Add F] [Mul F] (m : Mat44 F) (p : Vec3 F) : Vec3 F :=
  ⟨m.iBasis.x * p.x + m.jBasis.x * p.y + m.kBasis.x * p.z + m.translation.x,
   m.iBasis.y * p.x + m.jBasis.y * p.y + m.kBasis.y * p.z + m.translation.y,
   m.iBasis.z * p.x + m.jBasis.z * p.y + m.kBasis.z * p.z + m.translation.z⟩

/-- Modelled from the spec: `Mat44::TransformVectorQuantity3D`, the linear part of the
transform, "translation dropped". -/
def Mat44.TransformVectorQuantity3D [Add F] [Mul F] (m : Mat44 F) (v : Vec3 F) : Vec3 F :=
  ⟨m.iBasis.x * v.x + m.jBasis.x * v.y + m.kBasis.x * v.z,
   m.iBasis.y * v.x + m.jBasis.y * v.y + m.kBasis.y * v.z,
   m.iBasis.z * v.x + m.jBasis.z * v.y + m.kBasis.z * v.z⟩

/-- The square of the length of a vector. -/
def Vec3.lengthSquared [Add F] [Mul F] (v : Vec3 F) : F :=
  v.x * v.x + v.y * v.y + v.z * v.z

/-- Modelled from the spec: what is asked of `Vec3::Normalize` and
`Vec3::GetNormalized` (outside this file) where the source normalises the basis
vectors of the transform: a vector "unit-normalized" has length one, so a vector of
length one is left as it is. -/
def FixesUnitVectors [Add F] [Mul F] [One F] (normalize : Vec3 F → Vec3 F) : Prop :=
  ∀ v : Vec3 F, v.lengthSquared = 1 → normalize v = v

/-- Modelled from the spec: the collaborators of `Engine/Math` in exact arithmetic
over a commutative ring `F`: the transforms of `Mat44` as above, the subtraction and
the cross product of vectors coordinate by coordinate, and a function `normalize` for
`Normalize` and `GetNormalized`. The reads of the numeric fields and the elapsed time
stay parameters. -/
def exactCollaborators [CommRing F] (readVec3 : List Char → Vec3 F)
    (readVec2 : List Char → Vec2 F) (normalize : Vec3 F → Vec3 F) (elapsed : F) :
    Collaborators F (Mat44 F) where
  zero := 0
  one := 1
  readVec3 := readVec3
  readVec2 := readVec2
  TransformPosition3D := Mat44.TransformPosition3D
  GetIBasis3D := Mat44.iBasis
  GetJBasis3D := Mat44.jBasis
  GetKBasis3D := Mat44.kBasis
  Normalize := normalize
  mkMat44 := Mat44.mk
  TransformVectorQuantity3D := Mat44.TransformVectorQuantity3D
  sub := fun a b => ⟨a.x - b.x, a.y - b.y, a.z - b.z⟩
  CrossProduct3D := fun a b =>
    ⟨a.y * b.z - a.z * b.y, a.z * b.x - a.x * b.z, a.x * b.y - a.y * b.x⟩
  GetNormalized := normalize
  elapsed := elapsed

/-- The exact collaborators with integer coordinates, the reads and the normalisation
of `intCollaborators`. -/
def exactIntCollaborators : Collaborators Int (Mat44 Int) :=
  exactCollaborators intCollaborators.readVec3 intCollaborators.readVec2
    intCollaborators.GetNormalized 0

/-- A file whose face has three times the same corner. -/
def coincidentFile : List Char :=
  "v 1 2 3\nf 1 1 1\n".toList

/-- The closed form of the spec for the triangle count of a file: `k - 2` for every
face line, `k` being its number of corners (one for a triangle, `k - 2` for an
n-gon). -/
def closedFormTriangles (lines : List (List Char)) : Nat :=
  sumOverFaces (fun k => k - 2) lines

/-- What `ParseFile` returns on `threePointsFile` with empty buffers and a sink. -/
def countedPoints : Output Int :=
  { shadedPoints with out_metaData := some ⟨3, 0, 0, 0, 0, 3, 3, 0⟩ }

/-- What `ParseFile` returns on the quad scenario with empty buffers and a sink. -/
def countedQuad : Output Int :=
  { out_vertices :=
      [⟨⟨0, 0, 0⟩, ⟨0, 0, 1⟩, Rgba8.WHITE, ⟨0, 0⟩⟩,
       ⟨⟨1, 0, 0⟩, ⟨0, 0, 1⟩, Rgba8.WHITE, ⟨0, 0⟩⟩,
       ⟨⟨1, 1, 0⟩, ⟨0, 0, 1⟩, Rgba8.WHITE, ⟨0, 0⟩⟩,
       ⟨⟨0, 0, 0⟩, ⟨0, 0, 1⟩, Rgba8.WHITE, ⟨0, 0⟩⟩,
       ⟨⟨1, 1, 0⟩, ⟨0, 0, 1⟩, Rgba8.WHITE, ⟨0, 0⟩⟩,
       ⟨⟨0, 1, 0⟩, ⟨0, 0, 1⟩, Rgba8.WHITE, ⟨0, 0⟩⟩]
    out_indices := [0, 1, 2, 3, 4, 5]
    out_metaData := some ⟨4, 0, 0, 1, 2, 6, 6, 0⟩ }

/-- A file with a normal record, four positions, a triangle, a quad and a face of two
corners. -/
def allPathsFile : List Char :=
  "vn 0 0 1\nv 0 0 0\nv 1 0 0\nv 1 1 0\nv 0 1 0\nf 1 2 3\nf 1 2 3 4\nf 1 2\n".toList

/-- What `ParseFile` returns on `allPathsFile`, called with the buffers that
`firstLoad` holds. -/
def allPathsOutput : Output Int :=
  (ParseFile intCollaborators allPathsFile () firstLoad.out_vertices firstLoad.out_indices
    none).getD ⟨[], [], none⟩

/-- The state `st` of a run on empty buffers, seen from a run on buffers that held
`vertices` and `indices`: the vertices of `st` come behind `vertices`, and its
indices, each raised by the number of `vertices`, behind `indices`. -/
def behindBuffers (vertices : List (Vertex_PCUTBN F)) (indices : List Nat)
    (st : LoopState F) : LoopState F :=
  { st with
    out_vertices := vertices ++ st.out_vertices
    out_indices := indices ++ st.out_indices.map (fun index => index + vertices.length) }

/-- What `ParseFile` returns on `allPathsFile`, called with empty buffers. -/
def allPathsOnEmpty : Output Int :=
  (ParseFile intCollaborators allPathsFile () [] [] none).getD ⟨[], [], none⟩

/-- The field number `k` of an index group is not there, or its integer value is zero
or negative. -/
def fieldUnused (indicesChunk : List Char) (k : Nat) : Bool :=
  match (SplitStringOnDelimeter indicesChunk '/')[k]? with
  | none => true
  | some field => decide (atoi field ≤ 0)

/-- A face line whose corners have fields that are zero, negative or not there. -/
def unusedFieldsLine : List Char :=
  "f 0 -1/0/0 1//0".toList

/-- A state of the loop with one position and no other record. -/
def onePositionState : LoopState Int :=
  { vertexPosList := [⟨1, 2, 3⟩]
    vertexUVList := []
    vertexNormalList := []
    hasNoFaces := true
    hasNoNormals := true
    numFacesCounter := 0
    numTrianglesCounter := 0
    out_vertices := []
    out_indices := []
    out_metaData := none }

/-! ## The face step -/

theorem resolveCorner_congr (C : Collaborators F M) (st st1 : LoopState F)
    (hp : st1.vertexPosList = st.vertexPosList) (hu : st1.vertexUVList = st.vertexUVList)
    (hn : st1.vertexNormalList = st.vertexNormalList) (chunk : List Char) :
    resolveCorner C st1 chunk = resolveCorner C st chunk := by
  simp [resolveCorner, hp, hu, hn]

theorem resolveAll_congr (C : Collaborators F M) (st st1 : LoopState F)
    (hp : st1.vertexPosList = st.vertexPosList) (hu : st1.vertexUVList = st.vertexUVList)
    (hn : st1.vertexNormalList = st.vertexNormalList) (chunks : List (List Char)) :
    resolveAll C st1 chunks = resolveAll C st chunks := by
  induction chunks with
  | nil => rfl
  | cons c cs ih => simp [resolveAll, ih, resolveCorner_congr C st st1 hp hu hn]

theorem resolveAll_length (C : Collaborators F M) (st : LoopState F) :
    ∀ (chunks : List (List Char)) (cands : List (Vertex_PCUTBN F)),
      resolveAll C st chunks = some cands → cands.length = chunks.length
  | [], cands, h => by
    simp [resolveAll] at h; subst h; rfl
  | c :: cs, cands, h => by
    simp only [resolveAll] at h
    cases hc : resolveCorner C st c with
    | none => simp [hc] at h
    | some v =>
      cases hr : resolveAll C st cs with
      | none => simp [hc, hr] at h
      | some vs =>
        simp [hc, hr] at h
        subst h
        simp [resolveAll_length C st cs vs hr]

theorem collectCandidates_eq (C : Collaborators F M) (st : LoopState F) :
    ∀ (chunks : List (List Char)) (vs : List (Vertex_PCUTBN F)) (is : List Nat),
      collectCandidates C st chunks (vs, is) =
        (resolveAll C st chunks).map (fun cands =>
          (vs ++ cands, is ++ List.range' (st.out_vertices.length + vs.length) cands.length))
  | [], vs, is => by simp [collectCandidates, resolveAll]
  | c :: cs, vs, is => by
    simp only [collectCandidates, resolveAll]
    cases hc : resolveCorner C st c with
    | none => simp
    | some v =>
      simp only []
      rw [collectCandidates_eq C st cs]
      cases hr : resolveAll C st cs with
      | none => simp
      | some vs1 =>
        simp [List.range'_succ, Nat.add_assoc]

theorem fanFrom_length {α : Type} (first : α) :
    ∀ rest : List α, (fanFrom first rest).length = 3 * (rest.length - 1)
  | [] => rfl
  | [_] => rfl
  | a :: b :: rest => by
    have := fanFrom_length first (b :: rest)
    simp only [fanFrom, List.length_cons] at this ⊢
    omega

theorem fanLoop_eq (first : Vertex_PCUTBN F) (rest : List (Vertex_PCUTBN F)) :
    ∀ (remaining m : Nat) (st : LoopState F), (rest.drop m).length = remaining + 1 →
      fanLoop (first :: rest) remaining (m + 1) st =
        some { st with
          out_indices := st.out_indices ++
            List.range' st.out_vertices.length (3 * remaining)
          out_vertices := st.out_vertices ++ fanFrom first (rest.drop m)
          numTrianglesCounter := st.numTrianglesCounter + remaining }
  | 0, m, st, h => by
    match hd : rest.drop m, h with
    | [a], _ => simp [fanLoop, fanFrom]
  | remaining + 1, m, st, h => by
    match hd : rest.drop m, h with
    | a :: b :: tail, h =>
      have h1 : rest[m]? = some a := by
        have := congrArg (fun l => l[0]?) hd
        simpa using this
      have h2 : rest[m + 1]? = some b := by
        have := congrArg (fun l => l[1]?) hd
        simpa using this
      have h3 : rest.drop (m + 1) = b :: tail := by
        have := congrArg (fun l => l.drop 1) hd
        simpa using this
      have hlen : (rest.drop (m + 1)).length = remaining + 1 := by
        rw [h3]; simpa using h
      simp only [fanLoop, List.getElem?_cons_zero, List.getElem?_cons_succ, h1, h2]
      rw [fanLoop_eq first rest remaining (m + 1) _ hlen, h3]
      simp [fanFrom, List.range'_succ, List.range'_append, Nat.mul_add, Nat.add_assoc]
      omega


theorem expandFace_length {α : Type} (cands : List α) :
    (expandFace cands).length = faceVertexCount cands.length := by
  unfold expandFace faceVertexCount
  split
  · match cands with
    | [] => simp at *
    | first :: rest =>
      simp only [fanFrom_length, List.length_cons]
      omega
  · rfl

/-- The state a face line leaves, from the corners it resolves. -/
theorem processFace_eq (C : Collaborators F M) (st : LoopState F) (lineSS : List Char) :
    processFace C st lineSS =
      (resolveAll C st (readChunks lineSS)).map (fun cands =>
        { st with
          hasNoFaces := false
          numFacesCounter := st.numFacesCounter + 1
          numTrianglesCounter := st.numTrianglesCounter + faceTriangleCount cands.length
          out_vertices := st.out_vertices ++ expandFace cands
          out_indices := st.out_indices ++
            List.range' st.out_vertices.length (expandFace cands).length
          out_metaData := st.out_metaData.map
            (fun metaData => { metaData with m_numFaces := metaData.m_numFaces + 1 }) }) := by
  unfold processFace
  simp only [collectCandidates_eq]
  have hc : resolveAll C { st with
      hasNoFaces := false
      numFacesCounter := st.numFacesCounter + 1
      numTrianglesCounter := st.numTrianglesCounter + 1 } (readChunks lineSS) =
        resolveAll C st (readChunks lineSS) := by
    apply resolveAll_congr <;> rfl
  rw [hc]
  cases hr : resolveAll C st (readChunks lineSS) with
  | none => simp
  | some cands =>
    simp only [Option.map_some', List.nil_append, List.length_nil, Nat.add_zero]
    by_cases hk : cands.length > 3
    · match cands, hk with
      | first :: rest, hk =>
        have hk3 : 3 ≤ rest.length := by simpa [Nat.lt_succ_iff] using hk
        have hfan := fanLoop_eq first rest (rest.length - 1) 0
          { st with
            hasNoFaces := false
            numFacesCounter := st.numFacesCounter + 1
            numTrianglesCounter := st.numTrianglesCounter + 1 }
          (by simp only [List.drop_zero]; omega)
        simp only [if_pos hk, List.length_cons, Nat.add_sub_cancel, Nat.zero_add] at hfan ⊢
        rw [hfan]
        simp only [Option.map_some', expandFace, if_pos hk, faceTriangleCount, List.drop_zero,
          fanFrom_length, List.length_cons]
        have e1 : st.numTrianglesCounter + 1 + ((rest.length - 1 : Nat) : Int) - 1 =
            st.numTrianglesCounter + ((rest.length + 1 - 2 : Nat) : Int) := by omega
        rw [e1]
        have hk4 : rest.length + 1 > 3 := by omega
        simp only [if_pos hk4, Option.map_some', fanFrom_length]
    · simp only [if_neg hk, Option.map_some', expandFace, faceTriangleCount, Nat.cast_one]

/-! ## The loop over the lines -/

theorem processLine_summary (C : Collaborators F M) (transform : M) (st st1 : LoopState F)
    (line : List Char) (h : processLine C transform st line = some st1) :
    RunSummary C transform st [line] st1 := by
  unfold processLine at h
  by_cases hv : (extractWord line).1 = ['v']
  · simp only [if_pos hv, Option.some.injEq] at h
    subst h
    constructor <;> simp [isRecord, hv, sumOverFaces, storedPosition]
  · simp only [if_neg hv] at h
    by_cases hvt : (extractWord line).1 = ['v', 't']
    · simp only [if_pos hvt, Option.some.injEq] at h
      subst h
      constructor <;> simp [isRecord, hvt, sumOverFaces, storedUV]
    · simp only [if_neg hvt] at h
      by_cases hvn : (extractWord line).1 = ['v', 'n']
      · simp only [if_pos hvn, Option.some.injEq] at h
        subst h
        constructor <;> simp [isRecord, hvn, sumOverFaces, storedNormal]
      · simp only [if_neg hvn] at h
        by_cases hf : (extractWord line).1 = ['f']
        · simp only [if_pos hf, processFace_eq] at h
          cases hr : resolveAll C st (readChunks (extractWord line).2) with
          | none => simp [hr] at h
          | some cands =>
            simp only [hr, Option.map_some', Option.some.injEq] at h
            subst h
            have hl := resolveAll_length C st _ _ hr
            constructor <;>
              simp [isRecord, hf, sumOverFaces, faceChunks, hl, expandFace_length]
        · simp only [if_neg hf, Option.some.injEq] at h
          subst h
          constructor <;> simp [isRecord, hv, hvt, hvn, hf, sumOverFaces]


theorem sumOverFaces_append (count : Nat → Nat) (l1 l2 : List (List Char)) :
    sumOverFaces count (l1 ++ l2) = sumOverFaces count l1 + sumOverFaces count l2 := by
  induction l1 with
  | nil => simp [sumOverFaces]
  | cons a l ih => simp [sumOverFaces, ih, Nat.add_assoc]

theorem RunSummary.refl (C : Collaborators F M) (transform : M) (st : LoopState F) :
    RunSummary C transform st [] st := by
  constructor <;> simp [sumOverFaces]

theorem RunSummary.trans {C : Collaborators F M} {transform : M} {st st1 st2 : LoopState F}
    {l1 l2 : List (List Char)} (h1 : RunSummary C transform st l1 st1)
    (h2 : RunSummary C transform st1 l2 st2) : RunSummary C transform st (l1 ++ l2) st2 := by
  obtain ⟨a1, hv1, hi1, hl1⟩ := h1.appended
  obtain ⟨a2, hv2, hi2, hl2⟩ := h2.appended
  constructor
  · rw [h2.pos, h1.pos]; simp
  · rw [h2.uv, h1.uv]; simp
  · rw [h2.normal, h1.normal]; simp
  · rw [h2.noFaces, h1.noFaces]; simp [Bool.and_assoc]
  · rw [h2.noNormals, h1.noNormals]; simp [Bool.and_assoc]
  · rw [h2.faces, h1.faces]; simp; omega
  · rw [h2.triangles, h1.triangles, sumOverFaces_append]; push_cast; omega
  · refine ⟨a1 ++ a2, ?_, ?_, ?_⟩
    · rw [hv2, hv1]; simp
    · rw [hi2, hi1, hv1]
      simp only [List.length_append, List.append_assoc, List.append_cancel_left_eq]
      have := List.range'_append st.out_vertices.length a1.length a2.length 1
      simp only [Nat.one_mul] at this
      rw [this, Nat.add_comm a2.length]
    · simp [hl1, hl2, sumOverFaces_append]
  · rw [h2.sink, h1.sink]

theorem runLines_append (C : Collaborators F M) (transform : M) :
    ∀ (l1 l2 : List (List Char)) (st : LoopState F),
      runLines C transform st (l1 ++ l2) =
        (runLines C transform st l1).bind (fun st1 => runLines C transform st1 l2)
  | [], l2, st => by simp [runLines]
  | a :: l1, l2, st => by
    simp only [List.cons_append, runLines]
    cases processLine C transform st a with
    | none => simp
    | some st1 => simp [runLines_append C transform l1 l2 st1]

theorem runLines_summary (C : Collaborators F M) (transform : M) :
    ∀ (lines : List (List Char)) (st st1 : LoopState F),
      runLines C transform st lines = some st1 → RunSummary C transform st lines st1
  | [], st, st1, h => by
    simp only [runLines, Option.some.injEq] at h
    subst h
    exact RunSummary.refl C transform st
  | line :: lines, st, st1, h => by
    simp only [runLines] at h
    cases hp : processLine C transform st line with
    | none => simp [hp] at h
    | some st2 =>
      simp only [hp] at h
      exact (processLine_summary C transform st st2 line hp).trans
        (runLines_summary C transform lines st2 st1 h)

/-! ## The post-pass fixups -/

theorem pointList_eq (C : Collaborators F M) :
    ∀ (positions : List (Vec3 F)) (vs : List (Vertex_PCUTBN F)) (is : List Nat),
      pointList C positions (vs, is) =
        (vs ++ positions.map (fun position =>
            (⟨position, ⟨C.one, C.zero, C.zero⟩, Rgba8.WHITE, ⟨C.zero, C.zero⟩⟩ :
              Vertex_PCUTBN F)),
         is ++ List.range' vs.length positions.length)
  | [], vs, is => by simp [pointList]
  | p :: ps, vs, is => by
    simp [pointList, pointList_eq C ps, List.range'_succ]

theorem flatNormals_length (C : Collaborators F M) :
    ∀ (vs fixed : List (Vertex_PCUTBN F)), flatNormals C vs = some fixed →
      fixed.length = vs.length ∧ vs.length % 3 = 0
  | [], fixed, h => by
    simp only [flatNormals, Option.some.injEq] at h
    subst h; simp
  | [_], fixed, h => by simp [flatNormals] at h
  | [_, _], fixed, h => by simp [flatNormals] at h
  | a :: b :: c :: vs, fixed, h => by
    simp only [flatNormals] at h
    cases hr : flatNormals C vs with
    | none => simp [hr] at h
    | some tail =>
      simp only [hr, Option.map_some', Option.some.injEq] at h
      subst h
      have := flatNormals_length C vs tail hr
      simp only [List.length_cons]
      omega

theorem flatNormals_isSome (C : Collaborators F M) :
    ∀ (vs : List (Vertex_PCUTBN F)), vs.length % 3 = 0 →
      ∃ fixed, flatNormals C vs = some fixed
  | [], _ => ⟨[], rfl⟩
  | [_], h => by simp at h
  | [_, _], h => by simp at h
  | a :: b :: c :: vs, h => by
    have h1 : vs.length % 3 = 0 := by
      simp only [List.length_cons] at h; omega
    obtain ⟨tail, ht⟩ := flatNormals_isSome C vs h1
    simp only [flatNormals, ht, Option.map_some']
    exact ⟨_, rfl⟩

/-- The fixup changes nothing but normals. -/
theorem flatNormals_keeps (C : Collaborators F M) :
    ∀ (vs fixed : List (Vertex_PCUTBN F)), flatNormals C vs = some fixed →
      fixed.map (fun v => (v.m_position, v.m_color, v.m_uvTexCoords)) =
        vs.map (fun v => (v.m_position, v.m_color, v.m_uvTexCoords))
  | [], fixed, h => by
    simp only [flatNormals, Option.some.injEq] at h
    subst h; rfl
  | [_], fixed, h => by simp [flatNormals] at h
  | [_, _], fixed, h => by simp [flatNormals] at h
  | a :: b :: c :: vs, fixed, h => by
    simp only [flatNormals] at h
    cases hr : flatNormals C vs with
    | none => simp [hr] at h
    | some tail =>
      simp only [hr, Option.map_some', Option.some.injEq] at h
      subst h
      simp [flatNormals_keeps C vs tail hr]

/-- After the fixup every group of three vertices carries the flat normal of its own
positions. -/
theorem flatNormals_groups (C : Collaborators F M) :
    ∀ (vs fixed : List (Vertex_PCUTBN F)), flatNormals C vs = some fixed →
      ∀ (i : Nat) (v0 v1 v2 : Vertex_PCUTBN F),
        (fixed.drop (3 * i)).take 3 = [v0, v1, v2] →
          v0.m_normal = C.GetNormalized (C.CrossProduct3D
            (C.sub v1.m_position v0.m_position) (C.sub v2.m_position v1.m_position)) ∧
          v1.m_normal = v0.m_normal ∧ v2.m_normal = v0.m_normal
  | [], fixed, h, i, v0, v1, v2, hg => by
    simp only [flatNormals, Option.some.injEq] at h
    subst h; simp at hg
  | [_], fixed, h, _, _, _, _, _ => by simp [flatNormals] at h
  | [_, _], fixed, h, _, _, _, _, _ => by simp [flatNormals] at h
  | a :: b :: c :: vs, fixed, h, i, v0, v1, v2, hg => by
    simp only [flatNormals] at h
    cases hr : flatNormals C vs with
    | none => simp [hr] at h
    | some tail =>
      simp only [hr, Option.map_some', Option.some.injEq] at h
      subst h
      cases i with
      | zero =>
        simp only [Nat.mul_zero, List.drop_zero, List.take_succ_cons, List.take_zero,
          List.cons.injEq, and_true] at hg
        obtain ⟨h0, h1, h2⟩ := hg
        subst h0 h1 h2
        simp
      | succ i =>
        have e : 3 * (i + 1) = 3 * i + 1 + 1 + 1 := by omega
        rw [e] at hg
        simp only [List.drop_succ_cons] at hg
        exact flatNormals_groups C vs tail hr i v0 v1 v2 hg

/-! ## Runs that stay in range -/

theorem lookupOr_isSome {α : Type} (list : List α) (index : Int) (dflt : α)
    (h : index < (list.length : Int)) : ∃ a, lookupOr list index dflt = some a := by
  unfold lookupOr
  by_cases hi : index ≥ 0
  · have hlt : index.toNat < list.length := by omega
    exact ⟨list[index.toNat], by simp [hi, List.getElem?_eq_getElem hlt]⟩
  · exact ⟨dflt, by simp [hi]⟩

theorem resolveCorner_isSome (C : Collaborators F M) (st : LoopState F) (chunk : List Char)
    (h : cornerInRange st.vertexPosList.length st.vertexUVList.length
      st.vertexNormalList.length chunk = true) :
    ∃ v, resolveCorner C st chunk = some v := by
  simp only [cornerInRange, Bool.and_eq_true, decide_eq_true_eq] at h
  obtain ⟨⟨hp, hu⟩, hn⟩ := h
  obtain ⟨p, hp1⟩ := lookupOr_isSome st.vertexPosList _ (⟨C.zero, C.zero, C.zero⟩ : Vec3 F) hp
  obtain ⟨u, hu1⟩ := lookupOr_isSome st.vertexUVList _ (⟨C.zero, C.zero⟩ : Vec2 F) hu
  obtain ⟨n, hn1⟩ := lookupOr_isSome st.vertexNormalList _ (⟨C.one, C.zero, C.zero⟩ : Vec3 F) hn
  simp only [resolveCorner, hp1, hu1, hn1]
  exact ⟨_, rfl⟩

theorem resolveAll_isSome (C : Collaborators F M) (st : LoopState F) :
    ∀ (chunks : List (List Char)),
      chunks.all (cornerInRange st.vertexPosList.length st.vertexUVList.length
        st.vertexNormalList.length) = true →
      ∃ cands, resolveAll C st chunks = some cands
  | [], _ => ⟨[], rfl⟩
  | c :: cs, h => by
    simp only [List.all_cons, Bool.and_eq_true] at h
    obtain ⟨v, hv⟩ := resolveCorner_isSome C st c h.1
    obtain ⟨vs, hvs⟩ := resolveAll_isSome C st cs h.2
    exact ⟨v :: vs, by simp only [resolveAll, hv, hvs]⟩

/-- A file whose faces refer to records that precede them is read to its end. -/
theorem runLines_isSome (C : Collaborators F M) (transform : M) :
    ∀ (lines : List (List Char)) (st : LoopState F),
      refsInRange st.vertexPosList.length st.vertexUVList.length st.vertexNormalList.length
        lines = true →
      ∃ st1, runLines C transform st lines = some st1
  | [], st, _ => ⟨st, rfl⟩
  | line :: lines, st, h => by
    simp only [refsInRange] at h
    simp only [runLines, processLine]
    by_cases hv : (extractWord line).1 = ['v']
    · simp only [isRecord, hv, decide_True, if_true] at h
      simp only [if_pos hv]
      exact runLines_isSome C transform lines _ (by simpa using h)
    · by_cases hvt : (extractWord line).1 = ['v', 't']
      · simp only [isRecord, hvt, decide_True, if_true] at h
        simp only [if_neg hv, if_pos hvt]
        exact runLines_isSome C transform lines _ (by simpa using h)
      · by_cases hvn : (extractWord line).1 = ['v', 'n']
        · simp only [isRecord, hvn, decide_True, if_true] at h
          simp only [if_neg hv, if_neg hvt, if_pos hvn]
          exact runLines_isSome C transform lines _ (by simpa using h)
        · by_cases hf : (extractWord line).1 = ['f']
          · simp only [isRecord, hf, decide_True, if_true] at h
            simp only [if_neg hv, if_neg hvt, if_neg hvn, if_pos hf, processFace_eq]
            have h1 : (faceChunks line).all (cornerInRange st.vertexPosList.length
                st.vertexUVList.length st.vertexNormalList.length) = true ∧
                refsInRange st.vertexPosList.length st.vertexUVList.length
                  st.vertexNormalList.length lines = true := by
              simpa using h
            obtain ⟨cands, hc⟩ := resolveAll_isSome C st _ h1.1
            simp only [faceChunks] at hc
            simp only [hc, Option.map_some']
            exact runLines_isSome C transform lines _ h1.2
          · simp only [isRecord, hv, hvt, hvn, hf, decide_False, if_false] at h
            simp only [if_neg hv, if_neg hvt, if_neg hvn, if_neg hf]
            exact runLines_isSome C transform lines _ (by simpa using h)

theorem sumOverFaces_const (count : Nat → Nat) (c : Nat) :
    ∀ (lines : List (List Char)),
      (∀ line ∈ lines, isRecord ['f'] line = true → count (faceChunks line).length = c) →
      sumOverFaces count lines = c * (lines.filter (isRecord ['f'])).length
  | [], _ => by simp [sumOverFaces]
  | line :: lines, h => by
    have ih := sumOverFaces_const count c lines
      (fun l hl => h l (List.mem_cons_of_mem _ hl))
    by_cases hf : isRecord ['f'] line = true
    · have := h line (List.mem_cons_self _ _) hf
      simp only [sumOverFaces, hf, if_true, this, ih, List.filter_cons_of_pos, List.length_cons]
      rw [Nat.mul_succ]; omega
    · simp only [sumOverFaces, hf, ih, List.filter_cons_of_neg, Bool.false_eq_true, if_false,
        not_false_eq_true, Nat.zero_add]

theorem any_of_filter_length_pos {α : Type} (p : α → Bool) (l : List α)
    (h : 1 ≤ (l.filter p).length) : l.any p = true := by
  match hl : l.filter p, h with
  | a :: _, _ =>
    have ha : a ∈ l.filter p := by rw [hl]; exact List.mem_cons_self _ _
    rw [List.mem_filter] at ha
    exact List.any_eq_true.mpr ⟨a, ha.1, ha.2⟩

/-- After at least one face line, on a vertex buffer of whole triangles, the fixups
keep the sizes of the two buffers and the metadata is written from the counters. -/
theorem finish_of_faces (C : Collaborators F M) (st : LoopState F)
    (hf : st.hasNoFaces = false) (h3 : st.out_vertices.length % 3 = 0) :
    ∃ out, finish C st = some out ∧ out.out_vertices.length = st.out_vertices.length ∧
      out.out_indices = st.out_indices ∧
      out.out_metaData = st.out_metaData.map (fun _ =>
        { m_numPositions := st.vertexPosList.length
          m_numUVs := st.vertexUVList.length
          m_numNormals := st.vertexNormalList.length
          m_numFaces := st.numFacesCounter
          m_numTriangles := st.numTrianglesCounter
          m_numVertices := st.out_vertices.length
          m_numIndices := st.out_indices.length
          m_totalParseAndLoadTime := C.elapsed }) := by
  have hb : noFacesFallback C st = (st.out_vertices, st.out_indices) := by
    simp [noFacesFallback, hf]
  unfold finish
  rw [hb]
  by_cases hn : st.hasNoNormals = true
  · obtain ⟨fixed, hfix⟩ := flatNormals_isSome C st.out_vertices h3
    have hlen := (flatNormals_length C _ _ hfix).1
    simp only [noNormalsFallback, hn, if_true, hfix, Option.map_some']
    exact ⟨_, rfl, hlen, rfl, by simp only [hlen]⟩
  · simp only [noNormalsFallback, hn, Option.map_some', Bool.false_eq_true, if_false]
    exact ⟨_, rfl, rfl, rfl, rfl⟩

/-! ## Triangle counts -/

/-- C1. A file whose face records all have exactly three corners, each referring to
records that precede it, and that has `F >= 1` face records: `ParseFile`, called with
empty buffers and a metadata sink, returns; the sink holds `numTriangles = F` (and
`numFaces = F`), and there are exactly `3 * F` output indices and `3 * F` output
vertices. -/
theorem triangle_faces_counts (C : Collaborators F M) (fileString : List Char) (transform : M)
    (metaData : OBJLoaderMetaData F)
    (hcorners : ∀ line ∈ getLines fileString, isRecord ['f'] line = true →
      (faceChunks line).length = 3)
    (hrange : refsInRange 0 0 0 (getLines fileString) = true)
    (hfaces : 1 ≤ countRecords ['f'] fileString) :
    ∃ out written, ParseFile C fileString transform [] [] (some metaData) = some out ∧
      out.out_metaData = some written ∧
      written.m_numTriangles = (countRecords ['f'] fileString : Int) ∧
      written.m_numFaces = (countRecords ['f'] fileString : Int) ∧
      out.out_indices.length = 3 * countRecords ['f'] fileString ∧
      out.out_vertices.length = 3 * countRecords ['f'] fileString := by
  obtain ⟨st, hst⟩ := runLines_isSome C transform (getLines fileString)
    (initialState [] [] (some metaData)) hrange
  have S := runLines_summary C transform _ _ _ hst
  obtain ⟨app, hv, hi, hl⟩ := S.appended
  have htri : sumOverFaces faceTriangleCount (getLines fileString) =
      1 * countRecords ['f'] fileString :=
    sumOverFaces_const faceTriangleCount 1 _ (fun l hl hf => by
      simp [hcorners l hl hf, faceTriangleCount])
  have hver : sumOverFaces faceVertexCount (getLines fileString) =
      3 * countRecords ['f'] fileString :=
    sumOverFaces_const faceVertexCount 3 _ (fun l hl hf => by
      simp [hcorners l hl hf, faceVertexCount])
  have hany := any_of_filter_length_pos _ _ hfaces
  have hnf : st.hasNoFaces = false := by rw [S.noFaces, hany]; simp
  have hvlen : st.out_vertices.length = 3 * countRecords ['f'] fileString := by
    rw [hv, ← hver, ← hl]; simp [initialState]
  obtain ⟨out, hout, holen, hoi, hmd⟩ := finish_of_faces C st hnf (by omega)
  have hsome : st.out_metaData.isSome = true := by rw [S.sink]; rfl
  obtain ⟨md, hmd0⟩ := Option.isSome_iff_exists.mp hsome
  rw [hmd0, Option.map_some'] at hmd
  refine ⟨out, _, ?_, hmd, ?_, ?_, ?_, ?_⟩
  · simp only [ParseFile, hst, hout]
  · simp only [S.triangles, htri, initialState]; simp
  · simp only [S.faces, initialState, countRecords]; simp
  · rw [hoi, hi, hl, hver]; simp [initialState]
  · rw [holen, hvlen]

/-- C1, on the file of the round-trip scenario: one face, three vertices, the
indices `0, 1, 2`, one triangle. -/
theorem triangle_faces_counts_witness :
    (∀ line ∈ getLines triangleFile, isRecord ['f'] line = true →
        (faceChunks line).length = 3) ∧
      refsInRange 0 0 0 (getLines triangleFile) = true ∧
      1 ≤ countRecords ['f'] triangleFile ∧
      (∃ out written,
        ParseFile intCollaborators triangleFile () [] [] (some staleMetaData) = some out ∧
          out.out_metaData = some written ∧
          written.m_numTriangles = (countRecords ['f'] triangleFile : Int) ∧
          written.m_numFaces = (countRecords ['f'] triangleFile : Int) ∧
          out.out_indices.length = 3 * countRecords ['f'] triangleFile ∧
          out.out_vertices.length = 3 * countRecords ['f'] triangleFile) ∧
      countRecords ['f'] triangleFile = 1 ∧
      (ParseFile intCollaborators triangleFile () [] [] (some staleMetaData)).map
        (fun out => (out.out_vertices.map (fun v => v.m_position), out.out_indices)) =
          some ([⟨0, 0, 0⟩, ⟨1, 0, 0⟩, ⟨0, 1, 0⟩], [0, 1, 2]) :=
  ⟨by decide, by decide, by decide,
    triangle_faces_counts intCollaborators triangleFile () staleMetaData
      (by decide) (by decide) (by decide),
    by decide, by decide⟩

/-! ## Faces -/

theorem processLine_face (C : Collaborators F M) (transform : M) (st : LoopState F)
    (line : List Char) (hf : isRecord ['f'] line = true) :
    processLine C transform st line = processFace C st (extractWord line).2 := by
  simp only [isRecord, decide_eq_true_eq] at hf
  simp [processLine, hf]

theorem resolveAll_getElem (C : Collaborators F M) (st : LoopState F) :
    ∀ (chunks : List (List Char)) (corners : List (Vertex_PCUTBN F)),
      resolveAll C st chunks = some corners →
      ∀ (j : Nat) (chunk : List Char), chunks[j]? = some chunk →
        resolveCorner C st chunk = corners[j]?
  | [], _, _, j, chunk, hj => by simp at hj
  | c :: cs, corners, h, j, chunk, hj => by
    simp only [resolveAll] at h
    cases hc : resolveCorner C st c with
    | none => simp [hc] at h
    | some v =>
      cases hr : resolveAll C st cs with
      | none => simp [hc, hr] at h
      | some vs =>
        simp only [hc, hr, Option.some.injEq] at h
        subst h
        cases j with
        | zero =>
          simp only [List.getElem?_cons_zero, Option.some.injEq] at hj
          subst hj
          simp [hc]
        | succ j =>
          simp only [List.getElem?_cons_succ] at hj ⊢
          exact resolveAll_getElem C st cs vs hr j chunk hj

theorem fanFrom_triple {α : Type} (first : α) :
    ∀ (rest : List α) (j : Nat), j + 1 < rest.length →
      ∃ a b, rest[j]? = some a ∧ rest[j + 1]? = some b ∧
        ((fanFrom first rest).drop (3 * j)).take 3 = [first, a, b]
  | [], j, h => by simp at h
  | [_], j, h => by simp at h
  | a :: b :: rest, 0, _ => ⟨a, b, by simp [fanFrom]⟩
  | a :: b :: rest, j + 1, h => by
    have h1 : j + 1 < (b :: rest).length := by
      simp only [List.length_cons] at h ⊢; omega
    obtain ⟨x, y, hx, hy, hxy⟩ := fanFrom_triple first (b :: rest) j h1
    refine ⟨x, y, by simpa using hx, by simpa using hy, ?_⟩
    have e : 3 * (j + 1) = 3 * j + 1 + 1 + 1 := by omega
    rw [e]
    simpa [fanFrom] using hxy

/-- C2. A face record with `k > 3` corners whose references are in range: the line
appends exactly `3 * (k - 2)` vertices and as many indices, counts `k - 2` triangles,
and for `j = 1 .. k - 2` the `j`-th triple of appended vertices is
`(corner 0, corner j, corner j + 1)`, the corners being the vertices the index groups
resolve to. -/
theorem ngon_fan (C : Collaborators F M) (transform : M) (st : LoopState F) (line : List Char)
    (hf : isRecord ['f'] line = true) (hk : 3 < (faceChunks line).length)
    (hrange : (faceChunks line).all (cornerInRange st.vertexPosList.length
      st.vertexUVList.length st.vertexNormalList.length) = true) :
    ∃ (st1 : LoopState F) (corners appended : List (Vertex_PCUTBN F)),
      processLine C transform st line = some st1 ∧
      corners.length = (faceChunks line).length ∧
      (∀ (j : Nat) (chunk : List Char), (faceChunks line)[j]? = some chunk →
        resolveCorner C st chunk = corners[j]?) ∧
      st1.out_vertices = st.out_vertices ++ appended ∧
      appended.length = 3 * ((faceChunks line).length - 2) ∧
      st1.out_indices = st.out_indices ++
        List.range' st.out_vertices.length (3 * ((faceChunks line).length - 2)) ∧
      st1.numTrianglesCounter =
        st.numTrianglesCounter + (((faceChunks line).length - 2 : Nat) : Int) ∧
      ∀ j, 1 ≤ j → j ≤ (faceChunks line).length - 2 →
        ∃ c0 cj cj1, corners[0]? = some c0 ∧ corners[j]? = some cj ∧
          corners[j + 1]? = some cj1 ∧
          (appended.drop (3 * (j - 1))).take 3 = [c0, cj, cj1] := by
  obtain ⟨corners, hres⟩ := resolveAll_isSome C st _ hrange
  have hlen := resolveAll_length C st _ _ hres
  have hstep := processLine_face C transform st line hf
  rw [processFace_eq] at hstep
  simp only [faceChunks] at hres hlen hk ⊢
  rw [hres, Option.map_some'] at hstep
  have hk1 : corners.length > 3 := by omega
  refine ⟨_, corners, expandFace corners, hstep, hlen, ?_, rfl, ?_, ?_, ?_, ?_⟩
  · exact resolveAll_getElem C st _ _ hres
  · rw [expandFace_length, faceVertexCount, if_pos hk1, hlen]
  · simp only [expandFace_length, faceVertexCount, hlen, if_pos hk]
  · simp only [faceTriangleCount, hlen, if_pos hk]
  · intro j hj1 hj2
    match corners, hk1, hlen with
    | first :: rest, hk1, hlen =>
      simp only [List.length_cons] at hlen hk1
      obtain ⟨a, b, ha, hb, hab⟩ := fanFrom_triple first rest (j - 1) (by omega)
      have e : j - 1 + 1 = j := by omega
      rw [e] at hb
      refine ⟨first, a, b, by simp, ?_, ?_, ?_⟩
      · obtain ⟨i, rfl⟩ : ∃ i, j = i + 1 := ⟨j - 1, by omega⟩
        simpa using ha
      · simpa using hb
      · simp only [expandFace, List.length_cons, if_pos hk1]
        exact hab

/-- C2, on the quad scenario of the spec: `f 1 2 3 4` after four positions gives two
triangles, six vertices and six indices. -/
theorem ngon_fan_witness :
    isRecord ['f'] quadLine = true ∧ 3 < (faceChunks quadLine).length ∧
      (faceChunks quadLine).all (cornerInRange quadState.vertexPosList.length
        quadState.vertexUVList.length quadState.vertexNormalList.length) = true ∧
      (∃ (st1 : LoopState Int) (corners appended : List (Vertex_PCUTBN Int)),
        processLine intCollaborators () quadState quadLine = some st1 ∧
        corners.length = (faceChunks quadLine).length ∧
        (∀ (j : Nat) (chunk : List Char), (faceChunks quadLine)[j]? = some chunk →
          resolveCorner intCollaborators quadState chunk = corners[j]?) ∧
        st1.out_vertices = quadState.out_vertices ++ appended ∧
        appended.length = 3 * ((faceChunks quadLine).length - 2) ∧
        st1.out_indices = quadState.out_indices ++
          List.range' quadState.out_vertices.length (3 * ((faceChunks quadLine).length - 2)) ∧
        st1.numTrianglesCounter =
          quadState.numTrianglesCounter + (((faceChunks quadLine).length - 2 : Nat) : Int) ∧
        ∀ j, 1 ≤ j → j ≤ (faceChunks quadLine).length - 2 →
          ∃ c0 cj cj1, corners[0]? = some c0 ∧ corners[j]? = some cj ∧
            corners[j + 1]? = some cj1 ∧
            (appended.drop (3 * (j - 1))).take 3 = [c0, cj, cj1]) ∧
      runLines intCollaborators () (initialState [] [] none) (getLines quadPositions) =
        some quadState ∧
      (ParseFile intCollaborators (quadPositions ++ quadLine) () [] [] (some staleMetaData)).map
        (fun out => (out.out_vertices.map (fun v => v.m_position), out.out_indices,
          out.out_metaData.map (fun written => written.m_numTriangles))) =
        some ([⟨0, 0, 0⟩, ⟨1, 0, 0⟩, ⟨1, 1, 0⟩, ⟨0, 0, 0⟩, ⟨1, 1, 0⟩, ⟨0, 1, 0⟩],
          [0, 1, 2, 3, 4, 5], some 2) :=
  ⟨by decide, by decide, by decide,
    ngon_fan intCollaborators () quadState quadLine (by decide) (by decide) (by decide),
    by decide, by decide⟩

/-! ## Index groups as they are written -/

theorem isDigit_ne_slash (c : Char) (h : c.isDigit = true) : c ≠ '/' := by
  intro e; subst e; exact absurd h (by decide)

theorem isDigit_not_isSpace (c : Char) (h : c.isDigit = true) : isSpace c = false := by
  cases hs : isSpace c with
  | false => rfl
  | true =>
    simp only [isSpace, Bool.or_eq_true, decide_eq_true_eq] at hs
    rcases hs with ((((hs | hs) | hs) | hs) | hs) | hs <;>
      (subst hs; exact absurd h (by decide))

theorem atoi_numeral (s : List Char) (h : s.all Char.isDigit = true) :
    atoi s = (atoiDigits 0 s : Int) := by
  cases s with
  | nil => rfl
  | cons c cs =>
    simp only [List.all_cons, Bool.and_eq_true] at h
    have hsp := isDigit_not_isSpace c h.1
    have hm : c ≠ '-' := by intro e; subst e; exact absurd h.1 (by decide)
    have hp : c ≠ '+' := by intro e; subst e; exact absurd h.1 (by decide)
    unfold atoi
    simp only [List.dropWhile_cons, hsp, Bool.false_eq_true, if_false]
    split
    · rename_i heq; simp only [List.cons.injEq] at heq; exact absurd heq.1 hm
    · rename_i heq; simp only [List.cons.injEq] at heq; exact absurd heq.1 hp
    · rfl

theorem split_numeral (s : List Char) (h : s.all Char.isDigit = true) :
    SplitStringOnDelimeter s '/' = [s] := by
  induction s with
  | nil => rfl
  | cons c cs ih =>
    simp only [List.all_cons, Bool.and_eq_true] at h
    simp [SplitStringOnDelimeter, isDigit_ne_slash c h.1, ih h.2]

theorem split_numeral_slash (s rest : List Char) (h : s.all Char.isDigit = true) :
    SplitStringOnDelimeter (s ++ '/' :: rest) '/' = s :: SplitStringOnDelimeter rest '/' := by
  induction s with
  | nil => simp [SplitStringOnDelimeter]
  | cons c cs ih =>
    simp only [List.all_cons, Bool.and_eq_true] at h
    simp [SplitStringOnDelimeter, isDigit_ne_slash c h.1, ih h.2]

/-- The three indices of a written index group: the value of each numeral less one,
and `-1` for a field that is not there. -/
theorem indexGroup_text (g : IndexGroupText) (hp : g.p.all Char.isDigit = true)
    (ht : ∀ t, g.t = some t → t.all Char.isDigit = true)
    (hn : ∀ n, g.n = some n → n.all Char.isDigit = true) :
    indexGroup g.text =
      ((atoiDigits 0 g.p : Int) - 1,
       (match g.t with
        | none => -1
        | some t => (atoiDigits 0 t : Int) - 1),
       (match g.n with
        | none => -1
        | some n => (atoiDigits 0 n : Int) - 1)) := by
  obtain ⟨p, t, n⟩ := g
  cases t with
  | none =>
    cases n with
    | none =>
      simp [IndexGroupText.text, indexGroup, split_numeral p hp, atoi_numeral p hp]
    | some n =>
      have hn1 := hn n rfl
      have h0 : atoi [] = 0 := rfl
      simp [IndexGroupText.text, indexGroup, split_numeral_slash p _ hp, split_numeral n hn1,
        SplitStringOnDelimeter, atoi_numeral p hp, atoi_numeral n hn1, h0]
  | some t =>
    have ht1 := ht t rfl
    cases n with
    | none =>
      simp [IndexGroupText.text, indexGroup, split_numeral_slash p _ hp, split_numeral t ht1,
        atoi_numeral p hp, atoi_numeral t ht1]
    | some n =>
      have hn1 := hn n rfl
      simp [IndexGroupText.text, indexGroup, split_numeral_slash p _ hp,
        split_numeral_slash t _ ht1, split_numeral n hn1,
        atoi_numeral p hp, atoi_numeral t ht1, atoi_numeral n hn1]


theorem lookupOr_pred {α : Type} (list : List α) (v : Nat) (dflt : α) (h1 : 1 ≤ v)
    (h2 : v ≤ list.length) :
    ∃ a, lookupOr list ((v : Int) - 1) dflt = some a ∧ list[v - 1]? = some a := by
  have e : ((v : Int) - 1).toNat = v - 1 := by omega
  have hlt : v - 1 < list.length := by omega
  have hge : (v : Int) - 1 ≥ 0 := by omega
  exact ⟨list[v - 1], by simp [lookupOr, hge, e, List.getElem?_eq_getElem hlt],
    List.getElem?_eq_getElem hlt⟩

theorem numeralWithin_iff (bound : Nat) (s : List Char) :
    numeralWithin bound s = true ↔
      s.all Char.isDigit = true ∧ 1 ≤ atoiDigits 0 s ∧ atoiDigits 0 s ≤ bound := by
  simp [numeralWithin, and_assoc]

/-- A written index group within the records of `pre` resolves, in a state that holds
the records of `pre`, to the vertex it stands for. -/
theorem resolveCorner_text (C : Collaborators F M) (transform : M) (st : LoopState F)
    (pre : List (List Char)) (g : IndexGroupText)
    (hpos : st.vertexPosList = (pre.filter (isRecord ['v'])).map (storedPosition C transform))
    (huv : st.vertexUVList = (pre.filter (isRecord ['v', 't'])).map (storedUV C))
    (hnormal : st.vertexNormalList =
      (pre.filter (isRecord ['v', 'n'])).map (storedNormal C transform))
    (hg : g.within (pre.filter (isRecord ['v'])).length
      (pre.filter (isRecord ['v', 't'])).length
      (pre.filter (isRecord ['v', 'n'])).length = true) :
    ∃ w, resolveCorner C st g.text = some w ∧ Describes C transform pre g w := by
  simp only [IndexGroupText.within, Bool.and_eq_true] at hg
  obtain ⟨⟨hp, ht⟩, hn⟩ := hg
  rw [numeralWithin_iff] at hp
  have htd : ∀ t, g.t = some t → t.all Char.isDigit = true := by
    intro t e; rw [e] at ht; exact ((numeralWithin_iff _ _).mp ht).1
  have hnd : ∀ n, g.n = some n → n.all Char.isDigit = true := by
    intro n e; rw [e] at hn; exact ((numeralWithin_iff _ _).mp hn).1
  have hig := indexGroup_text g hp.1 htd hnd
  obtain ⟨pos, hpos1, hpos2⟩ := lookupOr_pred st.vertexPosList (atoiDigits 0 g.p)
    (⟨C.zero, C.zero, C.zero⟩ : Vec3 F) hp.2.1 (by rw [hpos]; simpa using hp.2.2)
  have huvs : ∃ uv, lookupOr st.vertexUVList (indexGroup g.text).2.1
      (⟨C.zero, C.zero⟩ : Vec2 F) = some uv ∧
      (match g.t with
       | none => uv = ⟨C.zero, C.zero⟩
       | some t => st.vertexUVList[atoiDigits 0 t - 1]? = some uv) := by
    rw [hig]
    cases htc : g.t with
    | none => exact ⟨⟨C.zero, C.zero⟩, by simp [lookupOr], rfl⟩
    | some t =>
      rw [htc] at ht
      have h := (numeralWithin_iff _ _).mp ht
      exact lookupOr_pred st.vertexUVList (atoiDigits 0 t) _ h.2.1
        (by rw [huv]; simpa using h.2.2)
  have hnos : ∃ no, lookupOr st.vertexNormalList (indexGroup g.text).2.2
      (⟨C.one, C.zero, C.zero⟩ : Vec3 F) = some no ∧
      (match g.n with
       | none => True
       | some n => st.vertexNormalList[atoiDigits 0 n - 1]? = some no) := by
    rw [hig]
    cases hnc : g.n with
    | none => exact ⟨⟨C.one, C.zero, C.zero⟩, by simp [lookupOr], trivial⟩
    | some n =>
      rw [hnc] at hn
      have h := (numeralWithin_iff _ _).mp hn
      exact lookupOr_pred st.vertexNormalList (atoiDigits 0 n) _ h.2.1
        (by rw [hnormal]; simpa using h.2.2)
  obtain ⟨uv, huv1, huv2⟩ := huvs
  obtain ⟨no, hno1, hno2⟩ := hnos
  have hp1 : lookupOr st.vertexPosList (indexGroup g.text).1
      (⟨C.zero, C.zero, C.zero⟩ : Vec3 F) = some pos := by
    rw [hig]; exact hpos1
  refine ⟨⟨pos, no, Rgba8.WHITE, uv⟩, by simp only [resolveCorner, hp1, huv1, hno1], ?_⟩
  refine ⟨by rw [← hpos]; exact hpos2, ?_, rfl, ?_⟩
  · cases htc : g.t with
    | none => rw [htc] at huv2; exact huv2
    | some t => rw [htc] at huv2; rw [← huv]; exact huv2
  · cases hnc : g.n with
    | none => trivial
    | some n => rw [hnc] at hno2; rw [← hnormal]; exact hno2

/-! ## Triangles, corner by corner -/

theorem Describes.of_same {C : Collaborators F M} {transform : M} {pre : List (List Char)}
    {g : IndexGroupText} {v w : Vertex_PCUTBN F} (h : Describes C transform pre g v)
    (hp : w.m_position = v.m_position) (hc : w.m_color = v.m_color)
    (hu : w.m_uvTexCoords = v.m_uvTexCoords) (hn : g.n = none ∨ w.m_normal = v.m_normal) :
    Describes C transform pre g w := by
  obtain ⟨h1, h2, h3, h4⟩ := h
  refine ⟨by rw [hp]; exact h1, ?_, by rw [hc]; exact h3, ?_⟩
  · cases ht : g.t with
    | none => rw [ht] at h2; rw [hu]; exact h2
    | some t => rw [ht] at h2; rw [hu]; exact h2
  · cases hnc : g.n with
    | none => trivial
    | some n =>
      rw [hnc] at h4
      rcases hn with hn | hn
      · rw [hnc] at hn; cases hn
      · rw [hn]; exact h4

/-- A group with a normal field within the records of `pre` needs a `vn` line in
`pre`. -/
theorem within_normal_any (pre : List (List Char)) (g : IndexGroupText) (numPos numUV : Nat)
    (hg : g.within numPos numUV (pre.filter (isRecord ['v', 'n'])).length = true)
    (n : List Char) (hn : g.n = some n) : pre.any (isRecord ['v', 'n']) = true := by
  simp only [IndexGroupText.within, Bool.and_eq_true, hn] at hg
  have h := (numeralWithin_iff _ _).mp hg.2
  exact any_of_filter_length_pos _ _ (by omega)

/-- What `ParseFile` returns, from the state the loop ends in. -/
theorem ParseFile_some (C : Collaborators F M) (fileString : List Char) (transform : M)
    (out_vertices : List (Vertex_PCUTBN F)) (out_indices : List Nat)
    (out_metaData : Option (OBJLoaderMetaData F)) (out : Output F)
    (h : ParseFile C fileString transform out_vertices out_indices out_metaData = some out) :
    ∃ st, runLines C transform (initialState out_vertices out_indices out_metaData)
        (getLines fileString) = some st ∧ finish C st = some out := by
  unfold ParseFile at h
  cases hr : runLines C transform (initialState out_vertices out_indices out_metaData)
      (getLines fileString) with
  | none => simp [hr] at h
  | some st => exact ⟨st, rfl, by simpa [hr] using h⟩

/-- The run over `pre ++ line :: post`, cut at `line`. -/
theorem runLines_split (C : Collaborators F M) (transform : M) (pre post : List (List Char))
    (line : List Char) (st0 stf : LoopState F)
    (h : runLines C transform st0 (pre ++ line :: post) = some stf) :
    ∃ st st1, runLines C transform st0 pre = some st ∧
      processLine C transform st line = some st1 ∧
      runLines C transform st1 post = some stf := by
  rw [runLines_append] at h
  cases hp : runLines C transform st0 pre with
  | none => simp [hp] at h
  | some st =>
    simp only [hp, Option.some_bind, runLines] at h
    cases hl : processLine C transform st line with
    | none => simp [hl] at h
    | some st1 =>
      simp only [hl] at h
      exact ⟨st, st1, rfl, hl, h⟩

/-- What `finish` returns after at least one face line. -/
theorem finish_some_of_faces (C : Collaborators F M) (st : LoopState F) (out : Output F)
    (hf : st.hasNoFaces = false) (h : finish C st = some out) :
    out.out_indices = st.out_indices ∧
      out.out_vertices.map (fun v => (v.m_position, v.m_color, v.m_uvTexCoords)) =
        st.out_vertices.map (fun v => (v.m_position, v.m_color, v.m_uvTexCoords)) ∧
      (st.hasNoNormals = false → out.out_vertices = st.out_vertices) ∧
      (st.hasNoNormals = true → flatNormals C st.out_vertices = some out.out_vertices) := by
  have hb : noFacesFallback C st = (st.out_vertices, st.out_indices) := by
    simp [noFacesFallback, hf]
  unfold finish at h
  rw [hb] at h
  by_cases hn : st.hasNoNormals = true
  · simp only [noNormalsFallback, hn, if_true] at h
    cases hfix : flatNormals C st.out_vertices with
    | none => simp [hfix] at h
    | some fixed =>
      simp only [hfix, Option.map_some', Option.some.injEq] at h
      subst h
      exact ⟨rfl, flatNormals_keeps C _ _ hfix, by simp [hn], fun _ => rfl⟩
  · simp only [noNormalsFallback, hn, Bool.false_eq_true, if_false, Option.map_some',
      Option.some.injEq] at h
    subst h
    exact ⟨rfl, rfl, fun _ => rfl, fun e => absurd e hn⟩


/-- The step of a face line with three written index groups. -/
theorem triangle_step (C : Collaborators F M) (transform : M)
    (out_vertices : List (Vertex_PCUTBN F)) (out_indices : List Nat)
    (out_metaData : Option (OBJLoaderMetaData F))
    (pre : List (List Char)) (line : List Char) (g0 g1 g2 : IndexGroupText)
    (st : LoopState F) (hf : isRecord ['f'] line = true)
    (hgroups : faceChunks line = [g0.text, g1.text, g2.text])
    (h0 : g0.within (pre.filter (isRecord ['v'])).length
      (pre.filter (isRecord ['v', 't'])).length (pre.filter (isRecord ['v', 'n'])).length = true)
    (h1 : g1.within (pre.filter (isRecord ['v'])).length
      (pre.filter (isRecord ['v', 't'])).length (pre.filter (isRecord ['v', 'n'])).length = true)
    (h2 : g2.within (pre.filter (isRecord ['v'])).length
      (pre.filter (isRecord ['v', 't'])).length (pre.filter (isRecord ['v', 'n'])).length = true)
    (hpre : runLines C transform (initialState out_vertices out_indices out_metaData) pre =
      some st) :
    ∃ (st1 : LoopState F) (v0 v1 v2 : Vertex_PCUTBN F),
      processLine C transform st line = some st1 ∧
      st1.hasNoFaces = false ∧ st1.hasNoNormals = st.hasNoNormals ∧
      st1.out_vertices = st.out_vertices ++ [v0, v1, v2] ∧
      st1.out_indices = st.out_indices ++
        [st.out_vertices.length, st.out_vertices.length + 1, st.out_vertices.length + 2] ∧
      Describes C transform pre g0 v0 ∧ Describes C transform pre g1 v1 ∧
      Describes C transform pre g2 v2 := by
  have S := runLines_summary C transform _ _ _ hpre
  have hpos : st.vertexPosList =
      (pre.filter (isRecord ['v'])).map (storedPosition C transform) := by
    rw [S.pos]; rfl
  have huv : st.vertexUVList = (pre.filter (isRecord ['v', 't'])).map (storedUV C) := by
    rw [S.uv]; rfl
  have hnormal : st.vertexNormalList =
      (pre.filter (isRecord ['v', 'n'])).map (storedNormal C transform) := by
    rw [S.normal]; rfl
  obtain ⟨v0, hr0, hd0⟩ := resolveCorner_text C transform st pre g0 hpos huv hnormal h0
  obtain ⟨v1, hr1, hd1⟩ := resolveCorner_text C transform st pre g1 hpos huv hnormal h1
  obtain ⟨v2, hr2, hd2⟩ := resolveCorner_text C transform st pre g2 hpos huv hnormal h2
  have hres : resolveAll C st (readChunks (extractWord line).2) = some [v0, v1, v2] := by
    have : readChunks (extractWord line).2 = [g0.text, g1.text, g2.text] := hgroups
    rw [this]
    simp only [resolveAll, hr0, hr1, hr2]
  have hstep := processLine_face C transform st line hf
  rw [processFace_eq, hres, Option.map_some'] at hstep
  refine ⟨_, v0, v1, v2, hstep, rfl, rfl, ?_, ?_, hd0, hd1, hd2⟩
  · simp [expandFace]
  · simp [expandFace, List.range']


theorem map_eq_triple {α β : Type} (f : α → β) (l : List α) (a b c : β)
    (h : l.map f = [a, b, c]) : ∃ x y z, l = [x, y, z] ∧ f x = a ∧ f y = b ∧ f z = c := by
  match l, h with
  | [x, y, z], h =>
    simp only [List.map_cons, List.map_nil, List.cons.injEq, and_true] at h
    exact ⟨x, y, z, rfl, h.1, h.2.1, h.2.2⟩

/-- C3. A face record with exactly three corners, each written `p`, `p/t`, `p//n` or
`p/t/n` with numerals between `1` and the number of `v`, `vt`, `vn` records that
precede the line: the line appends three vertices, in corner order, with the indices
`n0, n0 + 1, n0 + 2` (`n0` the length of the vertex buffer before the face); each
vertex has the stored (transformed) position of the `p`-th `v` record, the texture
coordinate of the `t`-th `vt` record or `(0, 0)` without that field, the colour white
and, when the group has a normal field, the stored normal of the `n`-th `vn` record;
and whenever `ParseFile` returns, its output holds at that place three vertices and
three indices of which the same is true. -/
theorem triangle_corner_resolution (C : Collaborators F M) (transform : M)
    (fileString : List Char) (out_vertices : List (Vertex_PCUTBN F)) (out_indices : List Nat)
    (out_metaData : Option (OBJLoaderMetaData F))
    (pre post : List (List Char)) (line : List Char) (g0 g1 g2 : IndexGroupText)
    (st : LoopState F) (hfile : getLines fileString = pre ++ line :: post)
    (hf : isRecord ['f'] line = true)
    (hgroups : faceChunks line = [g0.text, g1.text, g2.text])
    (h0 : g0.within (pre.filter (isRecord ['v'])).length
      (pre.filter (isRecord ['v', 't'])).length (pre.filter (isRecord ['v', 'n'])).length = true)
    (h1 : g1.within (pre.filter (isRecord ['v'])).length
      (pre.filter (isRecord ['v', 't'])).length (pre.filter (isRecord ['v', 'n'])).length = true)
    (h2 : g2.within (pre.filter (isRecord ['v'])).length
      (pre.filter (isRecord ['v', 't'])).length (pre.filter (isRecord ['v', 'n'])).length = true)
    (hpre : runLines C transform (initialState out_vertices out_indices out_metaData) pre =
      some st) :
    (∃ (st1 : LoopState F) (v0 v1 v2 : Vertex_PCUTBN F),
      processLine C transform st line = some st1 ∧
      st1.out_vertices = st.out_vertices ++ [v0, v1, v2] ∧
      st1.out_indices = st.out_indices ++
        [st.out_vertices.length, st.out_vertices.length + 1, st.out_vertices.length + 2] ∧
      Describes C transform pre g0 v0 ∧ Describes C transform pre g1 v1 ∧
      Describes C transform pre g2 v2) ∧
    ∀ out, ParseFile C fileString transform out_vertices out_indices out_metaData = some out →
      ∃ w0 w1 w2,
        (out.out_vertices.drop st.out_vertices.length).take 3 = [w0, w1, w2] ∧
        (out.out_indices.drop st.out_indices.length).take 3 =
          [st.out_vertices.length, st.out_vertices.length + 1, st.out_vertices.length + 2] ∧
        Describes C transform pre g0 w0 ∧ Describes C transform pre g1 w1 ∧
        Describes C transform pre g2 w2 := by
  obtain ⟨st1, v0, v1, v2, hstep, hnf1, hnn1, hv1, hi1, hd0, hd1, hd2⟩ :=
    triangle_step C transform out_vertices out_indices out_metaData pre line g0 g1 g2 st hf
      hgroups h0 h1 h2 hpre
  refine ⟨⟨st1, v0, v1, v2, hstep, hv1, hi1, hd0, hd1, hd2⟩, ?_⟩
  intro out hout
  obtain ⟨stf, hrun, hfin⟩ := ParseFile_some C _ _ _ _ _ _ hout
  rw [hfile] at hrun
  obtain ⟨st', st1', hpre', hstep', hpost⟩ := runLines_split C transform _ _ _ _ _ hrun
  rw [hpre] at hpre'
  cases hpre'
  rw [hstep] at hstep'
  cases hstep'
  have S2 := runLines_summary C transform _ _ _ hpost
  have S := runLines_summary C transform _ _ _ hpre
  obtain ⟨app, hav, hai, -⟩ := S2.appended
  have hnff : stf.hasNoFaces = false := by rw [S2.noFaces, hnf1]; rfl
  obtain ⟨hoi, hkeep, hsame, hfix⟩ := finish_some_of_faces C stf out hnff hfin
  have hvf : stf.out_vertices = st.out_vertices ++ ([v0, v1, v2] ++ app) := by
    rw [hav, hv1]; simp
  have hif : stf.out_indices = st.out_indices ++
      ([st.out_vertices.length, st.out_vertices.length + 1, st.out_vertices.length + 2] ++
        List.range' st1.out_vertices.length app.length) := by
    rw [hai, hi1]; simp
  have hseg : (stf.out_vertices.drop st.out_vertices.length).take 3 = [v0, v1, v2] := by
    rw [hvf, List.drop_left]; rfl
  have hiseg : (out.out_indices.drop st.out_indices.length).take 3 =
      [st.out_vertices.length, st.out_vertices.length + 1, st.out_vertices.length + 2] := by
    rw [hoi, hif, List.drop_left]; rfl
  by_cases hn : stf.hasNoNormals = true
  · have hmap : ((out.out_vertices.drop st.out_vertices.length).take 3).map
        (fun v => (v.m_position, v.m_color, v.m_uvTexCoords)) =
        [(v0.m_position, v0.m_color, v0.m_uvTexCoords),
         (v1.m_position, v1.m_color, v1.m_uvTexCoords),
         (v2.m_position, v2.m_color, v2.m_uvTexCoords)] := by
      rw [List.map_take, List.map_drop, hkeep, ← List.map_drop, ← List.map_take, hseg]
      rfl
    obtain ⟨w0, w1, w2, hw, e0, e1, e2⟩ := map_eq_triple _ _ _ _ _ hmap
    simp only [Prod.mk.injEq] at e0 e1 e2
    have hno : ∀ (g : IndexGroupText), g.within (pre.filter (isRecord ['v'])).length
        (pre.filter (isRecord ['v', 't'])).length
        (pre.filter (isRecord ['v', 'n'])).length = true → g.n = none := by
      intro g hg
      cases hgn : g.n with
      | none => rfl
      | some n =>
        have hany := within_normal_any pre g _ _ hg n hgn
        have : stf.hasNoNormals = false := by
          rw [S2.noNormals, hnn1, S.noNormals, hany]; simp
        rw [this] at hn
        cases hn
    exact ⟨w0, w1, w2, hw, hiseg,
      hd0.of_same e0.1 e0.2.1 e0.2.2 (Or.inl (hno g0 h0)),
      hd1.of_same e1.1 e1.2.1 e1.2.2 (Or.inl (hno g1 h1)),
      hd2.of_same e2.1 e2.2.1 e2.2.2 (Or.inl (hno g2 h2))⟩
  · have hn' : stf.hasNoNormals = false := by simpa using hn
    rw [hsame hn']
    exact ⟨v0, v1, v2, hseg, hiseg, hd0, hd1, hd2⟩

/-- C3, on a triangle whose corners are written `1/1/1`, `2//1` and `3/1`. -/
theorem triangle_corner_resolution_witness :
    getLines mixedTriangleFile = mixedPre ++ mixedLine :: ["# end".toList] ∧
    isRecord ['f'] mixedLine = true ∧
    faceChunks mixedLine =
      [(⟨['1'], some ['1'], some ['1']⟩ : IndexGroupText).text,
       (⟨['2'], none, some ['1']⟩ : IndexGroupText).text,
       (⟨['3'], some ['1'], none⟩ : IndexGroupText).text] ∧
    runLines intCollaborators () (initialState [] [] none) mixedPre = some mixedState ∧
    ((∃ (st1 : LoopState Int) (v0 v1 v2 : Vertex_PCUTBN Int),
      processLine intCollaborators () mixedState mixedLine = some st1 ∧
      st1.out_vertices = mixedState.out_vertices ++ [v0, v1, v2] ∧
      st1.out_indices = mixedState.out_indices ++
        [mixedState.out_vertices.length, mixedState.out_vertices.length + 1,
          mixedState.out_vertices.length + 2] ∧
      Describes intCollaborators () mixedPre ⟨['1'], some ['1'], some ['1']⟩ v0 ∧
      Describes intCollaborators () mixedPre ⟨['2'], none, some ['1']⟩ v1 ∧
      Describes intCollaborators () mixedPre ⟨['3'], some ['1'], none⟩ v2) ∧
    ∀ out, ParseFile intCollaborators mixedTriangleFile () [] [] none = some out →
      ∃ w0 w1 w2,
        (out.out_vertices.drop mixedState.out_vertices.length).take 3 = [w0, w1, w2] ∧
        (out.out_indices.drop mixedState.out_indices.length).take 3 =
          [mixedState.out_vertices.length, mixedState.out_vertices.length + 1,
            mixedState.out_vertices.length + 2] ∧
        Describes intCollaborators () mixedPre ⟨['1'], some ['1'], some ['1']⟩ w0 ∧
        Describes intCollaborators () mixedPre ⟨['2'], none, some ['1']⟩ w1 ∧
        Describes intCollaborators () mixedPre ⟨['3'], some ['1'], none⟩ w2) ∧
    ParseFile intCollaborators mixedTriangleFile () [] [] none =
      some ⟨[⟨⟨0, 0, 0⟩, ⟨0, 0, 1⟩, Rgba8.WHITE, ⟨3, 4⟩⟩,
             ⟨⟨1, 0, 0⟩, ⟨0, 0, 1⟩, Rgba8.WHITE, ⟨0, 0⟩⟩,
             ⟨⟨0, 1, 0⟩, ⟨1, 0, 0⟩, Rgba8.WHITE, ⟨3, 4⟩⟩], [0, 1, 2], none⟩ :=
  ⟨by decide, by decide, by decide, by decide,
    triangle_corner_resolution intCollaborators () mixedTriangleFile [] [] none mixedPre
      ["# end".toList] mixedLine ⟨['1'], some ['1'], some ['1']⟩ ⟨['2'], none, some ['1']⟩
      ⟨['3'], some ['1'], none⟩ mixedState (by decide) (by decide) (by decide) (by decide)
      (by decide) (by decide) (by decide),
    by decide⟩

/-! ## The fallback normals -/

theorem any_eq_false_of_filter_length {α : Type} (p : α → Bool) (l : List α)
    (h : (l.filter p).length = 0) : l.any p = false := by
  cases ha : l.any p with
  | false => rfl
  | true =>
    obtain ⟨a, hal, hpa⟩ := List.any_eq_true.mp ha
    have : a ∈ l.filter p := List.mem_filter.mpr ⟨hal, hpa⟩
    rw [List.length_eq_zero.mp h] at this
    cases this

/-- What `finish` returns, block by block. -/
theorem finish_some (C : Collaborators F M) (st : LoopState F) (out : Output F)
    (h : finish C st = some out) :
    noNormalsFallback C st (noFacesFallback C st).1 = some out.out_vertices ∧
      out.out_indices = (noFacesFallback C st).2 ∧
      out.out_metaData = st.out_metaData.map (fun _ =>
        { m_numPositions := st.vertexPosList.length
          m_numUVs := st.vertexUVList.length
          m_numNormals := st.vertexNormalList.length
          m_numFaces := st.numFacesCounter
          m_numTriangles := st.numTrianglesCounter
          m_numVertices := out.out_vertices.length
          m_numIndices := out.out_indices.length
          m_totalParseAndLoadTime := C.elapsed }) := by
  unfold finish at h
  cases hfix : noNormalsFallback C st (noFacesFallback C st).1 with
  | none => simp [hfix] at h
  | some fixed =>
    simp only [hfix, Option.map_some', Option.some.injEq] at h
    subst h
    exact ⟨rfl, rfl, rfl⟩

/-- C4. A file without `vn` records: when `ParseFile` returns, the output vertices
come in whole groups of three, and in every group `(v0, v1, v2)` the three normals
are equal to `normalize(cross(v1.position - v0.position, v2.position - v1.position))`
of the positions of that same group. -/
theorem no_normals_flat_shading (C : Collaborators F M) (fileString : List Char)
    (transform : M) (out_vertices : List (Vertex_PCUTBN F)) (out_indices : List Nat)
    (out_metaData : Option (OBJLoaderMetaData F)) (out : Output F)
    (hvn : countRecords ['v', 'n'] fileString = 0)
    (hout : ParseFile C fileString transform out_vertices out_indices out_metaData =
      some out) :
    out.out_vertices.length % 3 = 0 ∧
      ∀ (i : Nat) (v0 v1 v2 : Vertex_PCUTBN F),
        (out.out_vertices.drop (3 * i)).take 3 = [v0, v1, v2] →
          v0.m_normal = C.GetNormalized (C.CrossProduct3D
            (C.sub v1.m_position v0.m_position) (C.sub v2.m_position v1.m_position)) ∧
          v1.m_normal = v0.m_normal ∧ v2.m_normal = v0.m_normal := by
  obtain ⟨st, hrun, hfin⟩ := ParseFile_some C _ _ _ _ _ _ hout
  have S := runLines_summary C transform _ _ _ hrun
  have hnn : st.hasNoNormals = true := by
    rw [S.noNormals, any_eq_false_of_filter_length _ _ hvn]; rfl
  have hfix := (finish_some C st out hfin).1
  simp only [noNormalsFallback, hnn, if_true] at hfix
  have hlen := flatNormals_length C _ _ hfix
  exact ⟨by omega, flatNormals_groups C _ _ hfix⟩

/-- C4, on the file of the round-trip scenario: the triangle `(0,0,0), (1,0,0),
(0,1,0)` gets the normal `(0,0,1)` on its three vertices. -/
theorem no_normals_flat_shading_witness :
    countRecords ['v', 'n'] triangleFile = 0 ∧
    ParseFile intCollaborators triangleFile () [] [] none = some flatTriangle ∧
    flatTriangle.out_vertices.map (fun v => v.m_normal) =
      [⟨0, 0, 1⟩, ⟨0, 0, 1⟩, ⟨0, 0, 1⟩] ∧
    flatTriangle.out_vertices.length % 3 = 0 ∧
    ∀ (i : Nat) (v0 v1 v2 : Vertex_PCUTBN Int),
      (flatTriangle.out_vertices.drop (3 * i)).take 3 = [v0, v1, v2] →
        v0.m_normal = intCollaborators.GetNormalized (intCollaborators.CrossProduct3D
          (intCollaborators.sub v1.m_position v0.m_position)
          (intCollaborators.sub v2.m_position v1.m_position)) ∧
        v1.m_normal = v0.m_normal ∧ v2.m_normal = v0.m_normal :=
  ⟨by decide, by decide, by decide,
    no_normals_flat_shading intCollaborators triangleFile () [] [] none flatTriangle
      (by decide) (by decide)⟩

/-! ## The point list -/

/-- A file without face lines is read to its end, whatever it holds. -/
theorem runLines_isSome_of_no_faces (C : Collaborators F M) (transform : M) :
    ∀ (lines : List (List Char)) (st : LoopState F),
      (lines.filter (isRecord ['f'])).length = 0 →
      ∃ st1, runLines C transform st lines = some st1
  | [], st, _ => ⟨st, rfl⟩
  | line :: lines, st, h => by
    have hf : isRecord ['f'] line = false := by
      cases hc : isRecord ['f'] line with
      | false => rfl
      | true => simp [List.filter_cons, hc] at h
    have h1 : (lines.filter (isRecord ['f'])).length = 0 := by
      simpa [List.filter_cons, hf] using h
    have hne : ¬ (extractWord line).1 = ['f'] := by
      simpa [isRecord] using hf
    simp only [runLines, processLine, if_neg hne]
    split_ifs <;> exact runLines_isSome_of_no_faces C transform lines _ h1

/-- The point list of a file without face lines, when the fallback normals do not run
beyond the buffer: with empty buffers, one vertex per `v` record and the indices
`0, 1, ..., count - 1`. -/
theorem point_list_output (C : Collaborators F M) (fileString : List Char) (transform : M)
    (out_metaData : Option (OBJLoaderMetaData F))
    (hf : countRecords ['f'] fileString = 0)
    (hsafe : 1 ≤ countRecords ['v', 'n'] fileString ∨ countRecords ['v'] fileString % 3 = 0) :
    ∃ out, ParseFile C fileString transform [] [] out_metaData = some out ∧
      out.out_vertices.length = countRecords ['v'] fileString ∧
      out.out_indices = List.range (countRecords ['v'] fileString) := by
  obtain ⟨st, hst⟩ := runLines_isSome_of_no_faces C transform (getLines fileString)
    (initialState [] [] out_metaData) hf
  have S := runLines_summary C transform _ _ _ hst
  obtain ⟨app, hv, hi, hl⟩ := S.appended
  have hnf : st.hasNoFaces = true := by
    rw [S.noFaces, any_eq_false_of_filter_length _ _ hf]; rfl
  have hpos : st.vertexPosList.length = countRecords ['v'] fileString := by
    rw [S.pos]; simp [initialState, countRecords]
  have hsum : sumOverFaces faceVertexCount (getLines fileString) = 0 := by
    rw [sumOverFaces_const faceVertexCount 0 _ (fun l hl hfl => by
      have : l ∈ (getLines fileString).filter (isRecord ['f']) :=
        List.mem_filter.mpr ⟨hl, hfl⟩
      rw [List.length_eq_zero.mp hf] at this
      cases this)]
    simp
  have happ : app = [] := List.length_eq_zero.mp (by rw [hl, hsum])
  subst happ
  have hov : st.out_vertices = [] := by simpa [initialState] using hv
  have hoi : st.out_indices = [] := by simpa [initialState] using hi
  have hb : noFacesFallback C st =
      (st.vertexPosList.map (fun position =>
        (⟨position, ⟨C.one, C.zero, C.zero⟩, Rgba8.WHITE, ⟨C.zero, C.zero⟩⟩ :
          Vertex_PCUTBN F)), List.range st.vertexPosList.length) := by
    simp [noFacesFallback, hnf, pointList_eq, hov, hoi, List.range_eq_range']
  have hfixed : ∃ fixed, noNormalsFallback C st (noFacesFallback C st).1 = some fixed ∧
      fixed.length = st.vertexPosList.length := by
    by_cases hn : st.hasNoNormals = true
    · rw [hb]
      have h3 : countRecords ['v'] fileString % 3 = 0 := by
        rcases hsafe with h | h
        · have := any_of_filter_length_pos _ _ h
          rw [S.noNormals, this] at hn
          simp at hn
        · exact h
      obtain ⟨fixed, hfix⟩ := flatNormals_isSome C
        (st.vertexPosList.map (fun position =>
          (⟨position, ⟨C.one, C.zero, C.zero⟩, Rgba8.WHITE, ⟨C.zero, C.zero⟩⟩ :
            Vertex_PCUTBN F))) (by simpa [hpos] using h3)
      refine ⟨fixed, ?_, ?_⟩
      · simp only [noNormalsFallback, hn, if_true, hfix]
      · simpa using (flatNormals_length C _ _ hfix).1
    · refine ⟨(noFacesFallback C st).1, ?_, ?_⟩
      · simp only [noNormalsFallback, hn, Bool.false_eq_true, if_false]
      · rw [hb]; simp
  obtain ⟨fixed, hfix, hlen⟩ := hfixed
  cases hfin : finish C st with
  | none => simp [finish, hfix] at hfin
  | some out =>
    obtain ⟨h1, h2, -⟩ := finish_some C st out hfin
    rw [hfix, Option.some.injEq] at h1
    refine ⟨out, by simp only [ParseFile, hst, hfin], ?_, ?_⟩
    · rw [← h1, hlen, hpos]
    · rw [h2, hb, hpos]

/-- C5, at the file `v 0 0 0`: no face line and one position. The block
`if (hasNoFaces)` leaves one vertex and the index `0`; the block `if (hasNoNormals)`
then reads `out_vertices[1]`, beyond the end of the buffer, so that the call has no
defined result, whatever the collaborators are. -/
theorem point_list_runs_past_buffer (C : Collaborators F M) (transform : M)
    (out_metaData : Option (OBJLoaderMetaData F)) :
    countRecords ['f'] onePointFile = 0 ∧ countRecords ['v'] onePointFile = 1 ∧
      (runLines C transform (initialState [] [] out_metaData) (getLines onePointFile)).map
          (fun st => (st.hasNoNormals, (noFacesFallback C st).1.length,
            (noFacesFallback C st).2)) = some (true, 1, [0]) ∧
      ParseFile C onePointFile transform [] [] out_metaData = none :=
  ⟨by decide, by decide, rfl, rfl⟩

/-! ## Buffers that are not empty -/

/-- C6, at a second load into the buffers of a first one: the first load leaves three
vertices with the normal `(1,0,0)`; the second load, of a file without `vn` records,
returns with these three vertices changed, their normals being `(0,0,-1)`. -/
theorem earlier_vertices_overwritten :
    ParseFile intCollaborators defaultNormalFile () [] [] none = some firstLoad ∧
      (ParseFile intCollaborators triangleFile () firstLoad.out_vertices
          firstLoad.out_indices none).map (fun out => out.out_vertices.take 3) =
        some [⟨⟨0, 0, 0⟩, ⟨0, 0, -1⟩, Rgba8.WHITE, ⟨0, 0⟩⟩,
              ⟨⟨0, 1, 0⟩, ⟨0, 0, -1⟩, Rgba8.WHITE, ⟨0, 0⟩⟩,
              ⟨⟨1, 0, 0⟩, ⟨0, 0, -1⟩, Rgba8.WHITE, ⟨0, 0⟩⟩] ∧
      (ParseFile intCollaborators triangleFile () firstLoad.out_vertices
          firstLoad.out_indices none).map (fun out => out.out_vertices.take 3) ≠
        some firstLoad.out_vertices :=
  ⟨by decide, by decide, by decide⟩

/-! ## The counters -/

theorem sumOverFaces_vertices_triangles :
    ∀ (lines : List (List Char)),
      (∀ line ∈ lines, isRecord ['f'] line = true → 3 ≤ (faceChunks line).length) →
      sumOverFaces faceVertexCount lines = 3 * sumOverFaces faceTriangleCount lines
  | [], _ => by simp [sumOverFaces]
  | line :: lines, h => by
    have ih := sumOverFaces_vertices_triangles lines
      (fun l hl => h l (List.mem_cons_of_mem _ hl))
    by_cases hf : isRecord ['f'] line = true
    · have hk := h line (List.mem_cons_self _ _) hf
      simp only [sumOverFaces, hf, if_true, ih, faceVertexCount, faceTriangleCount]
      split_ifs <;> omega
    · simp only [sumOverFaces, hf, ih, Bool.false_eq_true, if_false, Nat.zero_add]

/-- C7, amended. Whenever `ParseFile`, given a sink, returns: the face count of the
sink is the number of face records; and when the file has at least one face record
and every face record has at least three corners, the call has appended exactly
`3 * numTriangles` indices (and as many vertices). -/
theorem face_and_triangle_counters (C : Collaborators F M) (fileString : List Char)
    (transform : M) (out_vertices : List (Vertex_PCUTBN F)) (out_indices : List Nat)
    (metaData : OBJLoaderMetaData F) (out : Output F)
    (hout : ParseFile C fileString transform out_vertices out_indices (some metaData) =
      some out) :
    ∃ written, out.out_metaData = some written ∧
      written.m_numFaces = (countRecords ['f'] fileString : Int) ∧
      (1 ≤ countRecords ['f'] fileString →
        (∀ line ∈ getLines fileString, isRecord ['f'] line = true →
          3 ≤ (faceChunks line).length) →
        (out.out_indices.length : Int) = out_indices.length + 3 * written.m_numTriangles ∧
          (out.out_vertices.length : Int) =
            out_vertices.length + 3 * written.m_numTriangles) := by
  obtain ⟨st, hrun, hfin⟩ := ParseFile_some C _ _ _ _ _ _ hout
  have S := runLines_summary C transform _ _ _ hrun
  obtain ⟨hfix, hoi, hmd⟩ := finish_some C st out hfin
  have hsome : st.out_metaData.isSome = true := by rw [S.sink]; rfl
  obtain ⟨md, hmd0⟩ := Option.isSome_iff_exists.mp hsome
  rw [hmd0, Option.map_some'] at hmd
  refine ⟨_, hmd, ?_, ?_⟩
  · simp only [S.faces, initialState, countRecords]; simp
  · intro hfaces hcorners
    obtain ⟨app, hv, hi, hl⟩ := S.appended
    have hany := any_of_filter_length_pos _ _ hfaces
    have hnf : st.hasNoFaces = false := by rw [S.noFaces, hany]; simp
    obtain ⟨hoi2, hkeep, -, -⟩ := finish_some_of_faces C st out hnf hfin
    have hlen : out.out_vertices.length = st.out_vertices.length := by
      have := congrArg List.length hkeep
      simpa using this
    have hsum := sumOverFaces_vertices_triangles _ hcorners
    simp only [S.triangles, initialState, Int.zero_add]
    rw [hoi2, hi, hlen, hv]
    simp only [initialState, List.length_append, List.length_range', hl, hsum]
    push_cast
    exact ⟨rfl, rfl⟩

/-- C7, on the file of the round-trip scenario: one face, one triangle, three
indices. -/
theorem face_and_triangle_counters_witness :
    ParseFile intCollaborators triangleFile () [] [] (some staleMetaData) =
      some countedTriangle ∧
    ∃ written, countedTriangle.out_metaData = some written ∧
      written.m_numFaces = (countRecords ['f'] triangleFile : Int) ∧
      (1 ≤ countRecords ['f'] triangleFile →
        (∀ line ∈ getLines triangleFile, isRecord ['f'] line = true →
          3 ≤ (faceChunks line).length) →
        (countedTriangle.out_indices.length : Int) =
            (([] : List Nat).length : Int) + 3 * written.m_numTriangles ∧
          (countedTriangle.out_vertices.length : Int) =
            (([] : List (Vertex_PCUTBN Int)).length : Int) + 3 * written.m_numTriangles) :=
  ⟨by decide,
    face_and_triangle_counters intCollaborators triangleFile () [] [] staleMetaData
      countedTriangle (by decide)⟩

/-- C7 as it is stated fails: a face line with two corners counts one triangle and
appends two indices, and a file without face lines counts no triangle and appends
one index per position. -/
theorem triangle_counter_counterexample :
    (ParseFile intCollaborators twoCornerFile () [] [] (some staleMetaData)).map
        (fun out => (out.out_indices.length,
          out.out_metaData.map (fun written => written.m_numTriangles))) =
      some (2, some 1) ∧
    (ParseFile intCollaborators pointsWithNormalFile () [] [] (some staleMetaData)).map
        (fun out => (out.out_indices.length,
          out.out_metaData.map (fun written => written.m_numTriangles))) =
      some (1, some 0) ∧
    (2 : Int) ≠ 3 * 1 ∧ (1 : Int) ≠ 3 * 0 :=
  ⟨by decide, by decide, by decide, by decide⟩

/-! ## The default normal -/

theorem resolveCorner_default_normal (C : Collaborators F M) (st : LoopState F)
    (chunk : List Char) (v : Vertex_PCUTBN F)
    (hfields : (SplitStringOnDelimeter chunk '/').length ≤ 2)
    (h : resolveCorner C st chunk = some v) : v.m_normal = ⟨C.one, C.zero, C.zero⟩ := by
  have hn : (indexGroup chunk).2.2 = -1 := by
    simp only [indexGroup]
    rw [if_neg (by omega)]
  unfold resolveCorner at h
  rw [hn] at h
  have hl : lookupOr st.vertexNormalList (-1) (⟨C.one, C.zero, C.zero⟩ : Vec3 F) =
      some ⟨C.one, C.zero, C.zero⟩ := by
    simp [lookupOr]
  rw [hl] at h
  split at h
  · rename_i heq1 heq2 heq3
    simp only [Option.some.injEq] at h heq3
    subst h
    exact heq3.symm
  · cases h

theorem fanFrom_map {α β : Type} (f : α → β) (first : α) :
    ∀ rest : List α, fanFrom (f first) (rest.map f) = (fanFrom first rest).map f
  | [] => rfl
  | [_] => rfl
  | a :: b :: rest => by
    have := fanFrom_map f first (b :: rest)
    simp only [List.map_cons] at this
    simp only [List.map_cons, fanFrom, this]

theorem expandFace_map {α β : Type} (f : α → β) (l : List α) :
    expandFace (l.map f) = (expandFace l).map f := by
  unfold expandFace
  simp only [List.length_map]
  split
  · cases l with
    | nil => rfl
    | cons a l => simp only [List.map_cons, fanFrom_map]
  · rfl

theorem map_some_eq_range_map {α : Type} (l : List α) :
    l.map some = (List.range l.length).map (fun j => l[j]?) := by
  apply List.ext_getElem?
  intro i
  simp only [List.getElem?_map, List.getElem?_range]
  by_cases hi : i < l.length
  · simp [List.getElem?_range hi, List.getElem?_eq_getElem hi]
  · have h1 : l[i]? = none := List.getElem?_eq_none (by omega)
    have h2 : (List.range l.length)[i]? = none := List.getElem?_eq_none (by simpa using hi)
    simp [h1, h2]

/-- The slot `slot` of the vertices a face appends holds the corner whose number is
in the slot `slot` of the expansion of the corner numbers. -/
theorem expandFace_slot {α : Type} (corners : List α) (slot j : Nat)
    (h : (expandFace (List.range corners.length))[slot]? = some j) :
    ∃ w, (expandFace corners)[slot]? = some w ∧ corners[j]? = some w := by
  have e : (expandFace corners).map some =
      (expandFace (List.range corners.length)).map (fun j => corners[j]?) := by
    rw [← expandFace_map, ← expandFace_map, map_some_eq_range_map]
  have e1 := congrArg (fun l => l[slot]?) e
  simp only [List.getElem?_map, h, Option.map_some'] at e1
  cases hw : (expandFace corners)[slot]? with
  | none => simp [hw] at e1
  | some w =>
    simp only [hw, Option.map_some', Option.some.injEq] at e1
    exact ⟨w, rfl, e1.symm⟩

/-- C8, amended. In a file with at least one `vn` record, take a face line and the
state `st` the lines before it leave. Whenever `ParseFile` returns, the vertices the
face has appended are in the output, from the place `st.out_vertices.length` on, and
every one of them that stands for a corner whose index group has no normal field
(at most two fields) has the normal `(1,0,0)`. The slots of a corner are read from
the expansion of the corner numbers `0 .. k - 1`. -/
theorem default_normal_kept (C : Collaborators F M) (transform : M)
    (fileString : List Char) (out_vertices : List (Vertex_PCUTBN F)) (out_indices : List Nat)
    (out_metaData : Option (OBJLoaderMetaData F))
    (pre post : List (List Char)) (line : List Char) (st : LoopState F) (out : Output F)
    (hfile : getLines fileString = pre ++ line :: post)
    (hf : isRecord ['f'] line = true)
    (hvn : 1 ≤ countRecords ['v', 'n'] fileString)
    (hpre : runLines C transform (initialState out_vertices out_indices out_metaData) pre =
      some st)
    (hout : ParseFile C fileString transform out_vertices out_indices out_metaData =
      some out) :
    st.out_vertices.length + faceVertexCount (faceChunks line).length ≤
        out.out_vertices.length ∧
      ∀ (slot j : Nat) (chunk : List Char) (w : Vertex_PCUTBN F),
        (expandFace (List.range (faceChunks line).length))[slot]? = some j →
        (faceChunks line)[j]? = some chunk →
        (SplitStringOnDelimeter chunk '/').length ≤ 2 →
        out.out_vertices[st.out_vertices.length + slot]? = some w →
        w.m_normal = ⟨C.one, C.zero, C.zero⟩ := by
  obtain ⟨stf, hrun, hfin⟩ := ParseFile_some C _ _ _ _ _ _ hout
  have Sall := runLines_summary C transform _ _ _ hrun
  rw [hfile] at hrun
  obtain ⟨st', st1, hpre', hstep, hpost⟩ := runLines_split C transform _ _ _ _ _ hrun
  rw [hpre] at hpre'
  cases hpre'
  have S2 := runLines_summary C transform _ _ _ hpost
  obtain ⟨app, hav, -, -⟩ := S2.appended
  rw [processLine_face C transform st line hf, processFace_eq] at hstep
  cases hres : resolveAll C st (readChunks (extractWord line).2) with
  | none => simp [hres] at hstep
  | some corners =>
    simp only [hres, Option.map_some', Option.some.injEq] at hstep
    subst hstep
    have hlen : corners.length = (faceChunks line).length := resolveAll_length C st _ _ hres
    have hnff : stf.hasNoFaces = false := by rw [S2.noFaces]; rfl
    have hnnf : stf.hasNoNormals = false := by
      rw [Sall.noNormals, any_of_filter_length_pos _ _ hvn]; simp
    obtain ⟨-, -, hsame, -⟩ := finish_some_of_faces C stf out hnff hfin
    have hov : out.out_vertices = st.out_vertices ++ (expandFace corners ++ app) := by
      rw [hsame hnnf, hav]; simp
    refine ⟨?_, ?_⟩
    · rw [hov, ← hlen, ← expandFace_length]
      simp only [List.length_append]
      omega
    · intro slot j chunk w hslot hchunk hfields hw
      rw [← hlen] at hslot
      obtain ⟨w', hw1, hw2⟩ := expandFace_slot corners slot j hslot
      have hlt : slot < (expandFace corners).length := by
        by_contra hc
        rw [List.getElem?_eq_none (by omega)] at hw1
        cases hw1
      rw [hov, List.getElem?_append_right (by omega), Nat.add_sub_cancel_left,
        List.getElem?_append_left hlt, hw1, Option.some.injEq] at hw
      subst hw
      have hr := resolveAll_getElem C st _ _ hres j chunk hchunk
      rw [hw2] at hr
      exact resolveCorner_default_normal C st chunk w' hfields hr


/-- C8 amended, on a quad whose first corner is written `1//1` and whose other
corners have no normal field, in a file with one `vn` record. -/
theorem default_normal_kept_witness :
    getLines fanFile = fanPre ++ fanLine :: [] ∧
    isRecord ['f'] fanLine = true ∧
    1 ≤ countRecords ['v', 'n'] fanFile ∧
    runLines intCollaborators () (initialState [] [] none) fanPre = some fanPreState ∧
    ParseFile intCollaborators fanFile () [] [] none = some fanOutput ∧
    (fanPreState.out_vertices.length + faceVertexCount (faceChunks fanLine).length ≤
        fanOutput.out_vertices.length ∧
      ∀ (slot j : Nat) (chunk : List Char) (w : Vertex_PCUTBN Int),
        (expandFace (List.range (faceChunks fanLine).length))[slot]? = some j →
        (faceChunks fanLine)[j]? = some chunk →
        (SplitStringOnDelimeter chunk '/').length ≤ 2 →
        fanOutput.out_vertices[fanPreState.out_vertices.length + slot]? = some w →
        w.m_normal = ⟨intCollaborators.one, intCollaborators.zero, intCollaborators.zero⟩) ∧
    expandFace (List.range (faceChunks fanLine).length) = [0, 1, 2, 0, 2, 3] :=
  ⟨by decide, by decide, by decide, by decide, by decide,
    default_normal_kept intCollaborators () fanFile [] [] none fanPre [] fanLine fanPreState
      fanOutput (by decide) (by decide) (by decide) (by decide) (by decide),
    by decide⟩

/-- C8 as it is stated fails: in the file of the round-trip scenario, which has no
`vn` record, the three corners `1`, `2`, `3` have no normal field and their vertices
come out with the normal `(0,0,1)`. -/
theorem default_normal_counterexample :
    (faceChunks "f 1 2 3".toList).map (fun chunk => (SplitStringOnDelimeter chunk '/').length) =
      [1, 1, 1] ∧
    ParseFile intCollaborators triangleFile () [] [] none = some flatTriangle ∧
    flatTriangle.out_vertices.map (fun v => v.m_normal) =
      [⟨0, 0, 1⟩, ⟨0, 0, 1⟩, ⟨0, 0, 1⟩] ∧
    (⟨0, 0, 1⟩ : Vec3 Int) ≠
      ⟨intCollaborators.one, intCollaborators.zero, intCollaborators.zero⟩ :=
  ⟨by decide, by decide, by decide, by decide⟩

/-! ## Lines that are skipped -/

theorem getLines_cons_feed (cs : List Char) :
    getLines ('\n' :: cs) = [] :: getLines cs := by
  rw [getLines, if_pos rfl]

theorem getLines_cons_of_ne (c : Char) (cs : List Char) (hc : c ≠ '\n') :
    getLines (c :: cs) =
      (match getLines cs with
       | [] => [[c]]
       | l :: ls => (c :: l) :: ls) := by
  rw [getLines, if_neg hc]

theorem getLines_ne_nil (c : Char) (cs : List Char) : getLines (c :: cs) ≠ [] := by
  by_cases hc : c = '\n'
  · subst hc; rw [getLines_cons_feed]; simp
  · rw [getLines_cons_of_ne c cs hc]
    split <;> simp

/-- A line without line feed, and the line feed that ends it, give one line. -/
theorem getLines_line (line rest : List Char) (h : '\n' ∉ line) :
    getLines (line ++ '\n' :: rest) = line :: getLines rest := by
  induction line with
  | nil => rw [List.nil_append, getLines_cons_feed]
  | cons c cs ih =>
    have hc : c ≠ '\n' := fun e => h (by simp [e])
    have hcs : '\n' ∉ cs := fun e => h (List.mem_cons_of_mem _ e)
    rw [List.cons_append, getLines_cons_of_ne _ _ hc, ih hcs]

/-- A text that ends at the end of a line can be read on its own. -/
theorem getLines_append (before rest : List Char)
    (h : before = [] ∨ before.getLast? = some '\n') :
    getLines (before ++ rest) = getLines before ++ getLines rest := by
  induction before with
  | nil => simp [getLines]
  | cons c cs ih =>
    have hlast : (c :: cs).getLast? = some '\n' := by
      rcases h with h | h
      · cases h
      · exact h
    by_cases hc : c = '\n'
    · have hcs : cs = [] ∨ cs.getLast? = some '\n' := by
        cases cs with
        | nil => exact Or.inl rfl
        | cons d ds => right; simpa [List.getLast?_cons_cons] using hlast
      subst hc
      rw [List.cons_append, getLines_cons_feed, getLines_cons_feed, ih hcs]
      rfl
    · cases cs with
      | nil => simp [List.getLast?] at hlast; exact absurd hlast hc
      | cons d ds =>
        have hcs : (d :: ds).getLast? = some '\n' := by
          simpa [List.getLast?_cons_cons] using hlast
        have hne := getLines_ne_nil d ds
        rw [List.cons_append, getLines_cons_of_ne _ _ hc, getLines_cons_of_ne _ _ hc,
          ih (Or.inr hcs)]
        cases hg : getLines (d :: ds) with
        | nil => exact absurd hg hne
        | cons l ls => rfl

theorem getLines_joinLines (lines : List (List Char)) (rest : List Char)
    (h : ∀ line ∈ lines, '\n' ∉ line) :
    getLines (joinLines lines ++ rest) = lines ++ getLines rest := by
  induction lines with
  | nil => simp [joinLines]
  | cons l ls ih =>
    have hl := h l (List.mem_cons_self _ _)
    simp only [joinLines, List.append_assoc, List.cons_append]
    rw [getLines_line _ _ hl, ih (fun x hx => h x (List.mem_cons_of_mem _ hx))]

theorem processLine_skipped (C : Collaborators F M) (transform : M) (st : LoopState F)
    (line : List Char) (h : isSkipped line = true) :
    processLine C transform st line = some st := by
  simp only [isSkipped, isRecord, Bool.and_eq_true, Bool.not_eq_true', decide_eq_false_iff_not]
    at h
  obtain ⟨⟨⟨hv, hvt⟩, hvn⟩, hf⟩ := h
  simp only [processLine, if_neg hv, if_neg hvt, if_neg hvn, if_neg hf]

theorem runLines_skipped (C : Collaborators F M) (transform : M) (st : LoopState F) :
    ∀ (lines : List (List Char)), (∀ line ∈ lines, isSkipped line = true) →
      runLines C transform st lines = some st
  | [], _ => rfl
  | l :: ls, h => by
    simp only [runLines, processLine_skipped C transform st l (h l (List.mem_cons_self _ _))]
    exact runLines_skipped C transform st ls (fun x hx => h x (List.mem_cons_of_mem _ hx))

theorem runLines_filter (C : Collaborators F M) (transform : M) :
    ∀ (lines : List (List Char)) (st : LoopState F),
      runLines C transform st (lines.filter (fun line => !isSkipped line)) =
        runLines C transform st lines
  | [], _ => rfl
  | l :: ls, st => by
    cases hs : isSkipped l with
    | true =>
      simp only [List.filter_cons, hs, Bool.not_true, Bool.false_eq_true, if_false, runLines,
        processLine_skipped C transform st l hs]
      exact runLines_filter C transform ls st
    | false =>
      simp only [List.filter_cons, hs, Bool.not_false, if_true, runLines]
      cases processLine C transform st l with
      | none => rfl
      | some st1 => exact runLines_filter C transform ls st1

/-- Skipped lines inserted into a text, at the start or behind a line feed, change
nothing of what `ParseFile` returns. -/
theorem skipped_lines_inserted (C : Collaborators F M) (transform : M)
    (before after : List Char) (inserted : List (List Char))
    (out_vertices : List (Vertex_PCUTBN F)) (out_indices : List Nat)
    (out_metaData : Option (OBJLoaderMetaData F))
    (hboundary : before = [] ∨ before.getLast? = some '\n')
    (hlines : ∀ line ∈ inserted, '\n' ∉ line)
    (hskipped : ∀ line ∈ inserted, isSkipped line = true) :
    ParseFile C (before ++ (joinLines inserted ++ after)) transform out_vertices out_indices
        out_metaData =
      ParseFile C (before ++ after) transform out_vertices out_indices out_metaData := by
  unfold ParseFile
  rw [getLines_append _ _ hboundary, getLines_append _ _ hboundary,
    getLines_joinLines _ _ hlines, runLines_append, runLines_append]
  cases hb : runLines C transform (initialState out_vertices out_indices out_metaData)
      (getLines before) with
  | none => rfl
  | some st =>
    simp only [Option.some_bind]
    rw [runLines_append, runLines_skipped C transform st inserted hskipped]
    rfl

/-- C9. Lines whose first word is none of `v`, `vt`, `vn`, `f` (comments, groups,
materials, blank lines, other tags) are skipped without effect: two texts whose lines
are the same once these lines are left out, such as a text and the same text with any
number of such lines inserted anywhere, give the same return of `ParseFile`: the same
output vertices, output indices and metadata. -/
theorem skipped_lines_ignored (C : Collaborators F M) (transform : M)
    (fileString withInserted : List Char)
    (out_vertices : List (Vertex_PCUTBN F)) (out_indices : List Nat)
    (out_metaData : Option (OBJLoaderMetaData F))
    (hsame : (getLines withInserted).filter (fun line => !isSkipped line) =
      (getLines fileString).filter (fun line => !isSkipped line)) :
    ParseFile C withInserted transform out_vertices out_indices out_metaData =
      ParseFile C fileString transform out_vertices out_indices out_metaData := by
  unfold ParseFile
  rw [← runLines_filter C transform (getLines withInserted), hsame, runLines_filter]

/-- C9, on the file of the round-trip scenario with a comment, a blank line, a group,
a `vp` record and a material inserted. -/
theorem skipped_lines_ignored_witness :
    (getLines commentedTriangleFile).filter (fun line => !isSkipped line) =
        (getLines triangleFile).filter (fun line => !isSkipped line) ∧
      (getLines commentedTriangleFile).length = (getLines triangleFile).length + 5 ∧
      ParseFile intCollaborators commentedTriangleFile () [] [] (some staleMetaData) =
        ParseFile intCollaborators triangleFile () [] [] (some staleMetaData) :=
  ⟨by decide, by decide,
    skipped_lines_ignored intCollaborators () triangleFile commentedTriangleFile [] []
      (some staleMetaData) (by decide)⟩

/-! ## The metadata -/

theorem processLine_withSinkContent (C : Collaborators F M) (transform : M)
    (metaData : OBJLoaderMetaData F) (st : LoopState F) (line : List Char) :
    (processLine C transform (withSinkContent metaData st) line).map
        (withSinkContent metaData) =
      (processLine C transform st line).map (withSinkContent metaData) := by
  have hc : resolveAll C (withSinkContent metaData st) (readChunks (extractWord line).2) =
      resolveAll C st (readChunks (extractWord line).2) := by
    apply resolveAll_congr <;> rfl
  unfold processLine
  rw [processFace_eq, processFace_eq, hc]
  cases hm : st.out_metaData <;>
    cases resolveAll C st (readChunks (extractWord line).2) <;>
    split_ifs <;> simp [withSinkContent, hm]

theorem runLines_withSinkContent (C : Collaborators F M) (transform : M)
    (metaData : OBJLoaderMetaData F) :
    ∀ (lines : List (List Char)) (st : LoopState F),
      (runLines C transform (withSinkContent metaData st) lines).map
          (withSinkContent metaData) =
        (runLines C transform st lines).map (withSinkContent metaData)
  | [], st => by
    cases hm : st.out_metaData <;> simp [runLines, withSinkContent, hm]
  | l :: ls, st => by
    have h := processLine_withSinkContent C transform metaData st l
    simp only [runLines]
    cases h1 : processLine C transform (withSinkContent metaData st) l with
    | none =>
      cases h2 : processLine C transform st l with
      | none => rfl
      | some b => simp [h1, h2] at h
    | some a =>
      cases h2 : processLine C transform st l with
      | none => simp [h1, h2] at h
      | some b =>
        simp only [h1, h2, Option.map_some', Option.some.injEq] at h
        simp only []
        rw [← runLines_withSinkContent C transform metaData ls a,
          ← runLines_withSinkContent C transform metaData ls b, h]

theorem finish_withSinkContent (C : Collaborators F M) (metaData : OBJLoaderMetaData F)
    (st : LoopState F) : finish C (withSinkContent metaData st) = finish C st := by
  cases hm : st.out_metaData <;>
    simp [finish, withSinkContent, noFacesFallback, noNormalsFallback, hm]

/-- What `ParseFile` returns does not depend on what the sink holds at the call. -/
theorem ParseFile_sink_content (C : Collaborators F M) (fileString : List Char)
    (transform : M) (out_vertices : List (Vertex_PCUTBN F)) (out_indices : List Nat)
    (first second : OBJLoaderMetaData F) :
    ParseFile C fileString transform out_vertices out_indices (some first) =
      ParseFile C fileString transform out_vertices out_indices (some second) := by
  have h1 := runLines_withSinkContent C transform first (getLines fileString)
    (initialState out_vertices out_indices (some first))
  have h2 := runLines_withSinkContent C transform first (getLines fileString)
    (initialState out_vertices out_indices (some second))
  have e : withSinkContent first (initialState out_vertices out_indices (some first)) =
      withSinkContent first (initialState out_vertices out_indices (some second)) := rfl
  rw [e] at h1
  rw [h1] at h2
  unfold ParseFile
  cases ha : runLines C transform (initialState out_vertices out_indices (some first))
      (getLines fileString) with
  | none =>
    cases hb : runLines C transform (initialState out_vertices out_indices (some second))
        (getLines fileString) with
    | none => rfl
    | some b => simp [ha, hb] at h2
  | some a =>
    cases hb : runLines C transform (initialState out_vertices out_indices (some second))
        (getLines fileString) with
    | none => simp [ha, hb] at h2
    | some b =>
      simp only [ha, hb, Option.map_some', Option.some.injEq] at h2
      simp only []
      rw [← finish_withSinkContent C first a, ← finish_withSinkContent C first b, h2]

/-- C10. When a sink is supplied and `ParseFile` returns, the sink holds: as
`numPositions`, `numUVs`, `numNormals` and `numFaces` the numbers of `v`, `vt`, `vn`
and `f` records of the file, and as `numVertices` and `numIndices` the lengths of the
two buffers on return; and the call returns the same, sink included, whatever the
sink held before. -/
theorem metadata_counts (C : Collaborators F M) (fileString : List Char) (transform : M)
    (out_vertices : List (Vertex_PCUTBN F)) (out_indices : List Nat)
    (metaData : OBJLoaderMetaData F) (out : Output F)
    (hout : ParseFile C fileString transform out_vertices out_indices (some metaData) =
      some out) :
    (∃ written, out.out_metaData = some written ∧
      written.m_numPositions = (countRecords ['v'] fileString : Int) ∧
      written.m_numUVs = (countRecords ['v', 't'] fileString : Int) ∧
      written.m_numNormals = (countRecords ['v', 'n'] fileString : Int) ∧
      written.m_numFaces = (countRecords ['f'] fileString : Int) ∧
      written.m_numVertices = (out.out_vertices.length : Int) ∧
      written.m_numIndices = (out.out_indices.length : Int)) ∧
    ∀ other : OBJLoaderMetaData F,
      ParseFile C fileString transform out_vertices out_indices (some other) = some out := by
  refine ⟨?_, fun other => by rw [ParseFile_sink_content C _ _ _ _ other metaData, hout]⟩
  obtain ⟨st, hrun, hfin⟩ := ParseFile_some C _ _ _ _ _ _ hout
  have S := runLines_summary C transform _ _ _ hrun
  obtain ⟨-, -, hmd⟩ := finish_some C st out hfin
  have hsome : st.out_metaData.isSome = true := by rw [S.sink]; rfl
  obtain ⟨md, hmd0⟩ := Option.isSome_iff_exists.mp hsome
  rw [hmd0, Option.map_some'] at hmd
  refine ⟨_, hmd, ?_, ?_, ?_, ?_, rfl, rfl⟩
  · simp [S.pos, initialState, countRecords]
  · simp [S.uv, initialState, countRecords]
  · simp [S.normal, initialState, countRecords]
  · simp [S.faces, initialState, countRecords]

/-- C10, on the file of the round-trip scenario and a sink that holds sevens. -/
theorem metadata_counts_witness :
    ParseFile intCollaborators triangleFile () [] [] (some staleMetaData) =
      some countedTriangle ∧
    ((∃ written, countedTriangle.out_metaData = some written ∧
      written.m_numPositions = (countRecords ['v'] triangleFile : Int) ∧
      written.m_numUVs = (countRecords ['v', 't'] triangleFile : Int) ∧
      written.m_numNormals = (countRecords ['v', 'n'] triangleFile : Int) ∧
      written.m_numFaces = (countRecords ['f'] triangleFile : Int) ∧
      written.m_numVertices = (countedTriangle.out_vertices.length : Int) ∧
      written.m_numIndices = (countedTriangle.out_indices.length : Int)) ∧
    ∀ other : OBJLoaderMetaData Int,
      ParseFile intCollaborators triangleFile () [] [] (some other) = some countedTriangle) :=
  ⟨by decide,
    metadata_counts intCollaborators triangleFile () [] [] staleMetaData countedTriangle
      (by decide)⟩

/-! ## The vertices of the point list -/

theorem sumOverFaces_of_no_faces (count : Nat → Nat) (lines : List (List Char))
    (hf : (lines.filter (isRecord ['f'])).length = 0) : sumOverFaces count lines = 0 := by
  rw [sumOverFaces_const count 0 lines (fun l hl hfl => by
    have : l ∈ lines.filter (isRecord ['f']) := List.mem_filter.mpr ⟨hl, hfl⟩
    rw [List.length_eq_zero.mp hf] at this
    cases this)]
  simp

/-- The state the loop ends in when the file has no face line: the buffers are as
they were, and the positions are those of the `v` lines. -/
theorem runLines_of_no_faces (C : Collaborators F M) (transform : M)
    (lines : List (List Char)) (st0 st : LoopState F)
    (hf : (lines.filter (isRecord ['f'])).length = 0)
    (hrun : runLines C transform st0 lines = some st) :
    st.out_vertices = st0.out_vertices ∧ st.out_indices = st0.out_indices ∧
      st.hasNoFaces = st0.hasNoFaces := by
  have S := runLines_summary C transform _ _ _ hrun
  obtain ⟨app, hv, hi, hl⟩ := S.appended
  have happ : app = [] :=
    List.length_eq_zero.mp (by rw [hl, sumOverFaces_of_no_faces _ _ hf])
  subst happ
  refine ⟨by simpa using hv, by simpa using hi, ?_⟩
  rw [S.noFaces, any_eq_false_of_filter_length _ _ hf]; simp

/-- C11, amended. A file without `f` records: `ParseFile` returns when the file has a
`vn` record or the vertex buffer ends in whole groups of three; and whenever it
returns, the vertex it has appended for the `i`-th `v` record, in file order, has the
stored (transformed) position of that record, the UV `(0,0)`, the colour white and,
when the file has at least one `vn` record, the normal `(1,0,0)`. -/
theorem point_list_vertices (C : Collaborators F M) (fileString : List Char) (transform : M)
    (out_vertices : List (Vertex_PCUTBN F)) (out_indices : List Nat)
    (out_metaData : Option (OBJLoaderMetaData F))
    (hf : countRecords ['f'] fileString = 0) :
    ((1 ≤ countRecords ['v', 'n'] fileString ∨
        (out_vertices.length + countRecords ['v'] fileString) % 3 = 0) →
      ∃ out, ParseFile C fileString transform out_vertices out_indices out_metaData =
        some out) ∧
    ∀ out, ParseFile C fileString transform out_vertices out_indices out_metaData = some out →
      ∀ (i : Nat) (line : List Char),
        ((getLines fileString).filter (isRecord ['v']))[i]? = some line →
        ∃ w, out.out_vertices[out_vertices.length + i]? = some w ∧
          w.m_position = storedPosition C transform line ∧
          w.m_uvTexCoords = ⟨C.zero, C.zero⟩ ∧ w.m_color = Rgba8.WHITE ∧
          (1 ≤ countRecords ['v', 'n'] fileString → w.m_normal = ⟨C.one, C.zero, C.zero⟩) := by
  obtain ⟨st, hst⟩ := runLines_isSome_of_no_faces C transform (getLines fileString)
    (initialState out_vertices out_indices out_metaData) hf
  have S := runLines_summary C transform _ _ _ hst
  obtain ⟨hov, hoi, hnf⟩ := runLines_of_no_faces C transform _ _ _ hf hst
  have hnf : st.hasNoFaces = true := hnf
  have hov : st.out_vertices = out_vertices := hov
  have hpos : st.vertexPosList =
      ((getLines fileString).filter (isRecord ['v'])).map (storedPosition C transform) := by
    rw [S.pos]; rfl
  have hb : (noFacesFallback C st).1 = out_vertices ++ st.vertexPosList.map (fun position =>
      (⟨position, ⟨C.one, C.zero, C.zero⟩, Rgba8.WHITE, ⟨C.zero, C.zero⟩⟩ :
        Vertex_PCUTBN F)) := by
    simp [noFacesFallback, hnf, pointList_eq, hov]
  have hP : ParseFile C fileString transform out_vertices out_indices out_metaData =
      finish C st := by
    simp only [ParseFile, hst]
  refine ⟨?_, ?_⟩
  · intro hsafe
    rw [hP]
    have hfixed : ∃ fixed, noNormalsFallback C st (noFacesFallback C st).1 = some fixed := by
      by_cases hn : st.hasNoNormals = true
      · have h3 : (out_vertices.length + countRecords ['v'] fileString) % 3 = 0 := by
          rcases hsafe with h | h
          · have := any_of_filter_length_pos _ _ h
            rw [S.noNormals, this] at hn
            simp at hn
          · exact h
        obtain ⟨fixed, hfix⟩ := flatNormals_isSome C (noFacesFallback C st).1
          (by rw [hb]; simpa [hpos, countRecords] using h3)
        exact ⟨fixed, by simp only [noNormalsFallback, hn, if_true, hfix]⟩
      · exact ⟨(noFacesFallback C st).1,
          by simp only [noNormalsFallback, hn, Bool.false_eq_true, if_false]⟩
    obtain ⟨fixed, hfix⟩ := hfixed
    cases hfin : finish C st with
    | none => simp [finish, hfix] at hfin
    | some out => exact ⟨out, rfl⟩
  · intro out hout i line hline
    rw [hP] at hout
    obtain ⟨hfix, -, -⟩ := finish_some C st out hout
    have hpoint : (noFacesFallback C st).1[out_vertices.length + i]? =
        some ⟨storedPosition C transform line, ⟨C.one, C.zero, C.zero⟩, Rgba8.WHITE,
          ⟨C.zero, C.zero⟩⟩ := by
      rw [hb, List.getElem?_append_right (by omega), Nat.add_sub_cancel_left, hpos,
        List.map_map, List.getElem?_map, hline]
      rfl
    by_cases hn : st.hasNoNormals = true
    · simp only [noNormalsFallback, hn, if_true] at hfix
      have hkeep := flatNormals_keeps C _ _ hfix
      have hk := congrArg (fun l => l[out_vertices.length + i]?) hkeep
      simp only [List.getElem?_map, hpoint, Option.map_some'] at hk
      cases hw : out.out_vertices[out_vertices.length + i]? with
      | none => simp [hw] at hk
      | some w =>
        simp only [hw, Option.map_some', Option.some.injEq, Prod.mk.injEq] at hk
        refine ⟨w, rfl, hk.1, hk.2.2, hk.2.1, ?_⟩
        intro hvn
        have := any_of_filter_length_pos _ _ hvn
        rw [S.noNormals, this] at hn
        simp at hn
    · simp only [noNormalsFallback, hn, Bool.false_eq_true, if_false, Option.some.injEq]
        at hfix
      rw [← hfix, hpoint]
      exact ⟨_, rfl, rfl, rfl, rfl, fun _ => rfl⟩


/-- C11 amended, on a file with one position and one normal record. -/
theorem point_list_vertices_witness :
    countRecords ['f'] pointsWithNormalFile = 0 ∧
    (((1 ≤ countRecords ['v', 'n'] pointsWithNormalFile ∨
        (([] : List (Vertex_PCUTBN Int)).length + countRecords ['v'] pointsWithNormalFile) % 3
          = 0) →
      ∃ out, ParseFile intCollaborators pointsWithNormalFile () [] [] none = some out) ∧
    ∀ out, ParseFile intCollaborators pointsWithNormalFile () [] [] none = some out →
      ∀ (i : Nat) (line : List Char),
        ((getLines pointsWithNormalFile).filter (isRecord ['v']))[i]? = some line →
        ∃ w, out.out_vertices[([] : List (Vertex_PCUTBN Int)).length + i]? = some w ∧
          w.m_position = storedPosition intCollaborators () line ∧
          w.m_uvTexCoords = ⟨intCollaborators.zero, intCollaborators.zero⟩ ∧
          w.m_color = Rgba8.WHITE ∧
          (1 ≤ countRecords ['v', 'n'] pointsWithNormalFile →
            w.m_normal =
              ⟨intCollaborators.one, intCollaborators.zero, intCollaborators.zero⟩)) ∧
    ParseFile intCollaborators pointsWithNormalFile () [] [] none =
      some ⟨[⟨⟨0, 0, 0⟩, ⟨1, 0, 0⟩, Rgba8.WHITE, ⟨0, 0⟩⟩], [0], none⟩ :=
  ⟨by decide, point_list_vertices intCollaborators pointsWithNormalFile () [] [] none
    (by decide), by decide⟩

/-- C11 as it is stated fails: a file with three `v` records and neither `f` nor `vn`
record returns three vertices whose normals are `(0,0,1)`, the flat normal of the
fallback, and not `(1,0,0)`. -/
theorem point_list_normal_counterexample :
    countRecords ['f'] threePointsFile = 0 ∧
    ParseFile intCollaborators threePointsFile () [] [] none = some shadedPoints ∧
    shadedPoints.out_vertices.map (fun v => v.m_normal) =
      [⟨0, 0, 1⟩, ⟨0, 0, 1⟩, ⟨0, 0, 1⟩] ∧
    (⟨0, 0, 1⟩ : Vec3 Int) ≠
      ⟨intCollaborators.one, intCollaborators.zero, intCollaborators.zero⟩ :=
  ⟨by decide, by decide, by decide, by decide⟩

/-! ## The identity transform -/

theorem Mat44.TransformPosition3D_identity [CommRing F] (p : Vec3 F) :
    Mat44.TransformPosition3D Mat44.identity p = p := by
  simp [Mat44.TransformPosition3D, Mat44.identity]

theorem Mat44.TransformVectorQuantity3D_identity [CommRing F] (v : Vec3 F) :
    Mat44.TransformVectorQuantity3D Mat44.identity v = v := by
  simp [Mat44.TransformVectorQuantity3D, Mat44.identity]

theorem storedPosition_identity [CommRing F] (readVec3 : List Char → Vec3 F)
    (readVec2 : List Char → Vec2 F) (normalize : Vec3 F → Vec3 F) (elapsed : F)
    (line : List Char) :
    storedPosition (exactCollaborators readVec3 readVec2 normalize elapsed) Mat44.identity
      line = readVec3 (extractWord line).2 := by
  simp [storedPosition, exactCollaborators, Mat44.TransformPosition3D_identity]

theorem storedNormal_identity [CommRing F] (readVec3 : List Char → Vec3 F)
    (readVec2 : List Char → Vec2 F) (normalize : Vec3 F → Vec3 F) (elapsed : F)
    (hunit : FixesUnitVectors normalize) (line : List Char) :
    storedNormal (exactCollaborators readVec3 readVec2 normalize elapsed) Mat44.identity
      line = readVec3 (extractWord line).2 := by
  have hi : normalize (⟨1, 0, 0⟩ : Vec3 F) = ⟨1, 0, 0⟩ :=
    hunit _ (by simp [Vec3.lengthSquared])
  have hj : normalize (⟨0, 1, 0⟩ : Vec3 F) = ⟨0, 1, 0⟩ :=
    hunit _ (by simp [Vec3.lengthSquared])
  have hk : normalize (⟨0, 0, 1⟩ : Vec3 F) = ⟨0, 0, 1⟩ :=
    hunit _ (by simp [Vec3.lengthSquared])
  have hm : (Mat44.mk ⟨1, 0, 0⟩ ⟨0, 1, 0⟩ ⟨0, 0, 1⟩ ⟨0, 0, 0⟩ : Mat44 F) = Mat44.identity :=
    rfl
  simp only [storedNormal, transformNormal, exactCollaborators, Mat44.identity, hi, hj, hk]
  rw [hm, Mat44.TransformVectorQuantity3D_identity]


/-- The vertex an index group resolves to, field by field. -/
theorem resolveCorner_fields (C : Collaborators F M) (st : LoopState F) (chunk : List Char)
    (w : Vertex_PCUTBN F) (h : resolveCorner C st chunk = some w) :
    lookupOr st.vertexPosList (indexGroup chunk).1 ⟨C.zero, C.zero, C.zero⟩ =
        some w.m_position ∧
      lookupOr st.vertexUVList (indexGroup chunk).2.1 ⟨C.zero, C.zero⟩ =
        some w.m_uvTexCoords ∧
      lookupOr st.vertexNormalList (indexGroup chunk).2.2 ⟨C.one, C.zero, C.zero⟩ =
        some w.m_normal ∧
      w.m_color = Rgba8.WHITE := by
  unfold resolveCorner at h
  split at h
  · rename_i hp hu hn
    simp only [Option.some.injEq] at h
    subst h
    exact ⟨hp, hu, hn, rfl⟩
  · cases h

theorem lookupOr_of_nonneg {α : Type} (list : List α) (index : Int) (dflt a : α)
    (h0 : 0 ≤ index) (h : lookupOr list index dflt = some a) :
    list[index.toNat]? = some a := by
  simpa [lookupOr, h0] using h

/-- C13. With the identity transform and the vector math in exact arithmetic, where
normalising leaves a vector of length one as it is: the position a `v` line stores is
the `(x, y, z)` read from the line, the normal a `vn` line stores is the `(x, y, z)`
read from the line, so that the lists of the loop hold the values of the file, and a
vertex resolved from an index group carries the values read from the `v` line and the
`vn` line it refers to. -/
theorem identity_transform_keeps_values [CommRing F] (readVec3 : List Char → Vec3 F)
    (readVec2 : List Char → Vec2 F) (normalize : Vec3 F → Vec3 F) (elapsed : F)
    (hunit : FixesUnitVectors normalize) :
    (∀ line, storedPosition (exactCollaborators readVec3 readVec2 normalize elapsed)
        Mat44.identity line = readVec3 (extractWord line).2) ∧
    (∀ line, storedNormal (exactCollaborators readVec3 readVec2 normalize elapsed)
        Mat44.identity line = readVec3 (extractWord line).2) ∧
    ∀ (out_vertices : List (Vertex_PCUTBN F)) (out_indices : List Nat)
      (out_metaData : Option (OBJLoaderMetaData F)) (lines : List (List Char))
      (st : LoopState F),
      runLines (exactCollaborators readVec3 readVec2 normalize elapsed) Mat44.identity
        (initialState out_vertices out_indices out_metaData) lines = some st →
      st.vertexPosList =
          (lines.filter (isRecord ['v'])).map (fun line => readVec3 (extractWord line).2) ∧
        st.vertexNormalList =
          (lines.filter (isRecord ['v', 'n'])).map
            (fun line => readVec3 (extractWord line).2) ∧
        ∀ (chunk : List Char) (w : Vertex_PCUTBN F),
          resolveCorner (exactCollaborators readVec3 readVec2 normalize elapsed) st chunk =
            some w →
          (0 ≤ (indexGroup chunk).1 →
            ∃ line, (lines.filter (isRecord ['v']))[(indexGroup chunk).1.toNat]? = some line ∧
              w.m_position = readVec3 (extractWord line).2) ∧
          (0 ≤ (indexGroup chunk).2.2 →
            ∃ line, (lines.filter (isRecord ['v', 'n']))[(indexGroup chunk).2.2.toNat]? =
                some line ∧
              w.m_normal = readVec3 (extractWord line).2) := by
  refine ⟨storedPosition_identity readVec3 readVec2 normalize elapsed,
    storedNormal_identity readVec3 readVec2 normalize elapsed hunit, ?_⟩
  intro out_vertices out_indices out_metaData lines st hrun
  have S := runLines_summary _ _ _ _ _ hrun
  have hpos : st.vertexPosList =
      (lines.filter (isRecord ['v'])).map (fun line => readVec3 (extractWord line).2) := by
    rw [S.pos]
    simp only [initialState, List.nil_append]
    exact List.map_congr_left (fun line _ =>
      storedPosition_identity readVec3 readVec2 normalize elapsed line)
  have hnormal : st.vertexNormalList =
      (lines.filter (isRecord ['v', 'n'])).map
        (fun line => readVec3 (extractWord line).2) := by
    rw [S.normal]
    simp only [initialState, List.nil_append]
    exact List.map_congr_left (fun line _ =>
      storedNormal_identity readVec3 readVec2 normalize elapsed hunit line)
  refine ⟨hpos, hnormal, ?_⟩
  intro chunk w hw
  obtain ⟨hp, -, hn, -⟩ := resolveCorner_fields _ st chunk w hw
  refine ⟨fun h0 => ?_, fun h0 => ?_⟩
  · have := lookupOr_of_nonneg _ _ _ _ h0 hp
    rw [hpos, List.getElem?_map] at this
    cases hl : (lines.filter (isRecord ['v']))[(indexGroup chunk).1.toNat]? with
    | none => simp [hl] at this
    | some line =>
      simp only [hl, Option.map_some', Option.some.injEq] at this
      exact ⟨line, rfl, this.symm⟩
  · have := lookupOr_of_nonneg _ _ _ _ h0 hn
    rw [hnormal, List.getElem?_map] at this
    cases hl : (lines.filter (isRecord ['v', 'n']))[(indexGroup chunk).2.2.toNat]? with
    | none => simp [hl] at this
    | some line =>
      simp only [hl, Option.map_some', Option.some.injEq] at this
      exact ⟨line, rfl, this.symm⟩

theorem fixesUnitVectors_sign :
    FixesUnitVectors intCollaborators.GetNormalized := by
  intro v hv
  obtain ⟨x, y, z⟩ := v
  simp only [Vec3.lengthSquared] at hv
  have hx : -1 ≤ x ∧ x ≤ 1 := by
    constructor <;> nlinarith [mul_self_nonneg y, mul_self_nonneg z, mul_self_nonneg (x - 1),
      mul_self_nonneg (x + 1)]
  have hy : -1 ≤ y ∧ y ≤ 1 := by
    constructor <;> nlinarith [mul_self_nonneg x, mul_self_nonneg z, mul_self_nonneg (y - 1),
      mul_self_nonneg (y + 1)]
  have hz : -1 ≤ z ∧ z ≤ 1 := by
    constructor <;> nlinarith [mul_self_nonneg x, mul_self_nonneg y, mul_self_nonneg (z - 1),
      mul_self_nonneg (z + 1)]
  have hs : ∀ a : Int, -1 ≤ a → a ≤ 1 → Int.sign a = a := by
    intro a h1 h2
    interval_cases a <;> rfl
  simp only [intCollaborators, hs x hx.1 hx.2, hs y hy.1 hy.2, hs z hz.1 hz.2]


/-- C13, with integer coordinates: the conclusion for the reads and the normalisation
of `intCollaborators`, and the return of `ParseFile` on a triangle with one texture
coordinate and one normal. -/
theorem identity_transform_keeps_values_witness :
    FixesUnitVectors intCollaborators.GetNormalized ∧
    ((∀ line, storedPosition exactIntCollaborators Mat44.identity line =
        intCollaborators.readVec3 (extractWord line).2) ∧
    (∀ line, storedNormal exactIntCollaborators Mat44.identity line =
        intCollaborators.readVec3 (extractWord line).2) ∧
    ∀ (out_vertices : List (Vertex_PCUTBN Int)) (out_indices : List Nat)
      (out_metaData : Option (OBJLoaderMetaData Int)) (lines : List (List Char))
      (st : LoopState Int),
      runLines exactIntCollaborators Mat44.identity
        (initialState out_vertices out_indices out_metaData) lines = some st →
      st.vertexPosList =
          (lines.filter (isRecord ['v'])).map
            (fun line => intCollaborators.readVec3 (extractWord line).2) ∧
        st.vertexNormalList =
          (lines.filter (isRecord ['v', 'n'])).map
            (fun line => intCollaborators.readVec3 (extractWord line).2) ∧
        ∀ (chunk : List Char) (w : Vertex_PCUTBN Int),
          resolveCorner exactIntCollaborators st chunk = some w →
          (0 ≤ (indexGroup chunk).1 →
            ∃ line, (lines.filter (isRecord ['v']))[(indexGroup chunk).1.toNat]? = some line ∧
              w.m_position = intCollaborators.readVec3 (extractWord line).2) ∧
          (0 ≤ (indexGroup chunk).2.2 →
            ∃ line, (lines.filter (isRecord ['v', 'n']))[(indexGroup chunk).2.2.toNat]? =
                some line ∧
              w.m_normal = intCollaborators.readVec3 (extractWord line).2)) ∧
    ParseFile exactIntCollaborators mixedTriangleFile Mat44.identity [] [] none =
      some ⟨[⟨⟨0, 0, 0⟩, ⟨0, 0, 1⟩, Rgba8.WHITE, ⟨3, 4⟩⟩,
             ⟨⟨1, 0, 0⟩, ⟨0, 0, 1⟩, Rgba8.WHITE, ⟨0, 0⟩⟩,
             ⟨⟨0, 1, 0⟩, ⟨1, 0, 0⟩, Rgba8.WHITE, ⟨3, 4⟩⟩], [0, 1, 2], none⟩ :=
  ⟨fixesUnitVectors_sign,
    identity_transform_keeps_values intCollaborators.readVec3 intCollaborators.readVec2
      intCollaborators.GetNormalized 0 fixesUnitVectors_sign,
    by decide⟩

/-! ## Triangles without area -/

/-- With the vector math in exact arithmetic and no `vn` record: a triangle of the
output whose second edge is a multiple of its first edge (collinear or coincident
corners) has, on its three vertices, what `normalize` returns for the zero vector. -/
theorem collinear_corners_normal [CommRing F] (readVec3 : List Char → Vec3 F)
    (readVec2 : List Char → Vec2 F) (normalize : Vec3 F → Vec3 F) (elapsed : F)
    (fileString : List Char) (transform : Mat44 F)
    (out_vertices : List (Vertex_PCUTBN F)) (out_indices : List Nat)
    (out_metaData : Option (OBJLoaderMetaData F)) (out : Output F)
    (hvn : countRecords ['v', 'n'] fileString = 0)
    (hout : ParseFile (exactCollaborators readVec3 readVec2 normalize elapsed) fileString
      transform out_vertices out_indices out_metaData = some out)
    (i : Nat) (v0 v1 v2 : Vertex_PCUTBN F) (k : F)
    (hgroup : (out.out_vertices.drop (3 * i)).take 3 = [v0, v1, v2])
    (hx : v2.m_position.x - v1.m_position.x = k * (v1.m_position.x - v0.m_position.x))
    (hy : v2.m_position.y - v1.m_position.y = k * (v1.m_position.y - v0.m_position.y))
    (hz : v2.m_position.z - v1.m_position.z = k * (v1.m_position.z - v0.m_position.z)) :
    v0.m_normal = normalize ⟨0, 0, 0⟩ ∧ v1.m_normal = normalize ⟨0, 0, 0⟩ ∧
      v2.m_normal = normalize ⟨0, 0, 0⟩ := by
  obtain ⟨st, hrun, hfin⟩ := ParseFile_some _ _ _ _ _ _ _ hout
  have S := runLines_summary _ _ _ _ _ hrun
  have hnn : st.hasNoNormals = true := by
    rw [S.noNormals, any_eq_false_of_filter_length _ _ hvn]; rfl
  have hfix := (finish_some _ st out hfin).1
  simp only [noNormalsFallback, hnn, if_true] at hfix
  obtain ⟨h0, h1, h2⟩ := flatNormals_groups _ _ _ hfix i v0 v1 v2 hgroup
  have hzero : (exactCollaborators readVec3 readVec2 normalize elapsed).CrossProduct3D
      ((exactCollaborators readVec3 readVec2 normalize elapsed).sub v1.m_position
        v0.m_position)
      ((exactCollaborators readVec3 readVec2 normalize elapsed).sub v2.m_position
        v1.m_position) = ⟨0, 0, 0⟩ := by
    simp only [exactCollaborators, hx, hy, hz, Vec3.mk.injEq]
    refine ⟨by ring, by ring, by ring⟩
  rw [hzero] at h0
  have h0' : v0.m_normal = normalize ⟨0, 0, 0⟩ := h0
  exact ⟨h0', h1.trans h0', h2.trans h0'⟩

/-- On integer coordinates, a face with three times the same corner comes out with
the normal `normalize (0,0,0)`, for every function `normalize`. -/
theorem coincident_corners_normal (normalize : Vec3 Int → Vec3 Int) :
    (ParseFile (exactCollaborators intCollaborators.readVec3 intCollaborators.readVec2
        normalize 0) coincidentFile Mat44.identity [] [] none).map
      (fun out => out.out_vertices.map (fun v => (v.m_position, v.m_normal))) =
    some [(⟨1, 2, 3⟩, normalize ⟨0, 0, 0⟩), (⟨1, 2, 3⟩, normalize ⟨0, 0, 0⟩),
      (⟨1, 2, 3⟩, normalize ⟨0, 0, 0⟩)] := by
  rfl

/-! ## The triangle counter and its closed form -/

theorem sumOverFaces_congr (count1 count2 : Nat → Nat) :
    ∀ (lines : List (List Char)),
      (∀ line ∈ lines, isRecord ['f'] line = true →
        count1 (faceChunks line).length = count2 (faceChunks line).length) →
      sumOverFaces count1 lines = sumOverFaces count2 lines
  | [], _ => rfl
  | line :: lines, h => by
    have ih := sumOverFaces_congr count1 count2 lines
      (fun l hl => h l (List.mem_cons_of_mem _ hl))
    by_cases hf : isRecord ['f'] line = true
    · simp only [sumOverFaces, hf, if_true, ih, h line (List.mem_cons_self _ _) hf]
    · simp only [sumOverFaces, hf, ih, Bool.false_eq_true, if_false]

/-- The counter of the source, one face at a time (one, plus one per turn of the fan
loop, less one), against the closed form, for faces of at least three corners. -/
theorem faceTriangleCount_closed_form (lines : List (List Char))
    (hcorners : ∀ line ∈ lines, isRecord ['f'] line = true → 3 ≤ (faceChunks line).length) :
    sumOverFaces faceTriangleCount lines = closedFormTriangles lines := by
  apply sumOverFaces_congr
  intro line hl hf
  have := hcorners line hl hf
  simp only [faceTriangleCount]
  split_ifs <;> omega

/-- C14, amended. A file in which every face record has at least three corners:
whenever `ParseFile`, given a sink, returns, the triangle count of the sink is the
closed form, the sum of `k - 2` over the face records; and when the file has at least
one face record, the call has appended exactly `3 * numTriangles` vertices and
`3 * numTriangles` indices. -/
theorem triangle_counter_closed_form (C : Collaborators F M) (fileString : List Char)
    (transform : M) (out_vertices : List (Vertex_PCUTBN F)) (out_indices : List Nat)
    (metaData : OBJLoaderMetaData F) (out : Output F)
    (hcorners : ∀ line ∈ getLines fileString, isRecord ['f'] line = true →
      3 ≤ (faceChunks line).length)
    (hout : ParseFile C fileString transform out_vertices out_indices (some metaData) =
      some out) :
    ∃ written, out.out_metaData = some written ∧
      written.m_numTriangles = (closedFormTriangles (getLines fileString) : Int) ∧
      (1 ≤ countRecords ['f'] fileString →
        out.out_vertices.length =
            out_vertices.length + 3 * closedFormTriangles (getLines fileString) ∧
          out.out_indices.length =
            out_indices.length + 3 * closedFormTriangles (getLines fileString)) := by
  obtain ⟨st, hrun, hfin⟩ := ParseFile_some C _ _ _ _ _ _ hout
  have S := runLines_summary C transform _ _ _ hrun
  obtain ⟨-, -, hmd⟩ := finish_some C st out hfin
  have hsome : st.out_metaData.isSome = true := by rw [S.sink]; rfl
  obtain ⟨md, hmd0⟩ := Option.isSome_iff_exists.mp hsome
  rw [hmd0, Option.map_some'] at hmd
  have hclosed := faceTriangleCount_closed_form _ hcorners
  refine ⟨_, hmd, ?_, ?_⟩
  · simp only [S.triangles, hclosed, initialState, Int.zero_add]
  · intro hfaces
    obtain ⟨app, hv, hi, hl⟩ := S.appended
    have hany := any_of_filter_length_pos _ _ hfaces
    have hnf : st.hasNoFaces = false := by rw [S.noFaces, hany]; simp
    obtain ⟨hoi2, hkeep, -, -⟩ := finish_some_of_faces C st out hnf hfin
    have hlen : out.out_vertices.length = st.out_vertices.length := by
      have := congrArg List.length hkeep
      simpa using this
    have hsum := sumOverFaces_vertices_triangles _ hcorners
    rw [hlen, hoi2, hv, hi]
    simp only [initialState, List.length_append, List.length_range', hl, hsum, hclosed,
      and_self]

/-- C14 amended, on the quad scenario: one face of four corners, two triangles, six
vertices and six indices. -/
theorem triangle_counter_closed_form_witness :
    (∀ line ∈ getLines (quadPositions ++ quadLine), isRecord ['f'] line = true →
      3 ≤ (faceChunks line).length) ∧
    ParseFile intCollaborators (quadPositions ++ quadLine) () [] [] (some staleMetaData) =
      some countedQuad ∧
    closedFormTriangles (getLines (quadPositions ++ quadLine)) = 2 ∧
    ∃ written, countedQuad.out_metaData = some written ∧
      written.m_numTriangles =
        (closedFormTriangles (getLines (quadPositions ++ quadLine)) : Int) ∧
      (1 ≤ countRecords ['f'] (quadPositions ++ quadLine) →
        countedQuad.out_vertices.length =
            ([] : List (Vertex_PCUTBN Int)).length +
              3 * closedFormTriangles (getLines (quadPositions ++ quadLine)) ∧
          countedQuad.out_indices.length =
            ([] : List Nat).length +
              3 * closedFormTriangles (getLines (quadPositions ++ quadLine))) :=
  ⟨by decide, by decide, by decide,
    triangle_counter_closed_form intCollaborators (quadPositions ++ quadLine) () [] []
      staleMetaData countedQuad (by decide) (by decide)⟩

/-- C14 as it is stated fails: a file with three `v` records and no face record has
only faces of at least three corners; it returns with the triangle count `0`, the
closed form, and with three vertices and three indices appended. -/
theorem closed_form_counterexample :
    (∀ line ∈ getLines threePointsFile, isRecord ['f'] line = true →
      3 ≤ (faceChunks line).length) ∧
    ParseFile intCollaborators threePointsFile () [] [] (some staleMetaData) =
      some countedPoints ∧
    countedPoints.out_metaData.map (fun written => written.m_numTriangles) = some 0 ∧
    closedFormTriangles (getLines threePointsFile) = 0 ∧
    countedPoints.out_vertices.length = 3 ∧ countedPoints.out_indices.length = 3 ∧
    3 ≠ 3 * 0 :=
  ⟨by decide, by decide, by decide, by decide, by decide, by decide, by decide⟩

/-! ## Runs without an access out of range -/

/-- C15. A file with at least one face record, in which every face record has at
least three corners and every index reference is at most the number of records of its
kind that precede the face line: `ParseFile`, called with empty buffers, returns, that
is, none of its reads of the position, UV and normal lists, of the corners of a fan
and of `out_vertices[i]`, `[i + 1]`, `[i + 2]` in the fallback is out of range. The
vertex buffer it returns holds whole groups of three. -/
theorem in_range_file_returns (C : Collaborators F M) (fileString : List Char)
    (transform : M) (out_metaData : Option (OBJLoaderMetaData F))
    (hfaces : 1 ≤ countRecords ['f'] fileString)
    (hcorners : ∀ line ∈ getLines fileString, isRecord ['f'] line = true →
      3 ≤ (faceChunks line).length)
    (hrange : refsInRange 0 0 0 (getLines fileString) = true) :
    ∃ out, ParseFile C fileString transform [] [] out_metaData = some out ∧
      out.out_vertices.length % 3 = 0 := by
  obtain ⟨st, hst⟩ := runLines_isSome C transform (getLines fileString)
    (initialState [] [] out_metaData) hrange
  have S := runLines_summary C transform _ _ _ hst
  obtain ⟨app, hv, -, hl⟩ := S.appended
  have hany := any_of_filter_length_pos _ _ hfaces
  have hnf : st.hasNoFaces = false := by rw [S.noFaces, hany]; simp
  have h3 : st.out_vertices.length % 3 = 0 := by
    rw [hv]
    simp only [initialState, List.nil_append, hl, sumOverFaces_vertices_triangles _ hcorners]
    omega
  obtain ⟨out, hout, holen, -, -⟩ := finish_of_faces C st hnf h3
  exact ⟨out, by simp only [ParseFile, hst, hout], by rw [holen]; exact h3⟩

/-- C15, on the quad scenario. -/
theorem in_range_file_returns_witness :
    1 ≤ countRecords ['f'] (quadPositions ++ quadLine) ∧
    (∀ line ∈ getLines (quadPositions ++ quadLine), isRecord ['f'] line = true →
      3 ≤ (faceChunks line).length) ∧
    refsInRange 0 0 0 (getLines (quadPositions ++ quadLine)) = true ∧
    (∃ out, ParseFile intCollaborators (quadPositions ++ quadLine) () [] [] none = some out ∧
      out.out_vertices.length % 3 = 0) ∧
    (ParseFile intCollaborators (quadPositions ++ quadLine) () [] [] none).isSome = true :=
  ⟨by decide, by decide, by decide,
    in_range_file_returns intCollaborators (quadPositions ++ quadLine) () none (by decide)
      (by decide) (by decide),
    by decide⟩

/-! ## The indices a call appends -/

/-- The buffers after the block `if (hasNoFaces)`: what was there, some vertices, and
the indices of these vertices. -/
theorem noFacesFallback_appended (C : Collaborators F M) (st : LoopState F) :
    ∃ app : List (Vertex_PCUTBN F), (noFacesFallback C st).1 = st.out_vertices ++ app ∧
      (noFacesFallback C st).2 =
        st.out_indices ++ List.range' st.out_vertices.length app.length := by
  unfold noFacesFallback
  split_ifs
  · rw [pointList_eq]
    exact ⟨_, rfl, by simp⟩
  · exact ⟨[], by simp, by simp⟩

/-- The block `if (hasNoNormals)` keeps the length of the buffer. -/
theorem noNormalsFallback_length (C : Collaborators F M) (st : LoopState F)
    (vs fixed : List (Vertex_PCUTBN F)) (h : noNormalsFallback C st vs = some fixed) :
    fixed.length = vs.length := by
  unfold noNormalsFallback at h
  split_ifs at h
  · exact (flatNormals_length C _ _ h).1
  · simp only [Option.some.injEq] at h
    rw [h]

/-- C16. Whenever `ParseFile` returns, on every path (triangles, fans, faces of fewer
than three corners, point list) and for every content of the buffers at the call: the
call has appended as many indices as vertices, the `j`-th index it has appended is
`n0 + j`, `n0` being the number of vertices in the buffer at the call, and so it is
the index of a vertex of the same call, below the final number of vertices. -/
theorem appended_indices_consecutive (C : Collaborators F M) (fileString : List Char)
    (transform : M) (out_vertices : List (Vertex_PCUTBN F)) (out_indices : List Nat)
    (out_metaData : Option (OBJLoaderMetaData F)) (out : Output F)
    (hout : ParseFile C fileString transform out_vertices out_indices out_metaData =
      some out) :
    ∃ count, out.out_vertices.length = out_vertices.length + count ∧
      out.out_indices.length = out_indices.length + count ∧
      out.out_indices = out_indices ++ List.range' out_vertices.length count ∧
      ∀ j, j < count →
        out.out_indices[out_indices.length + j]? = some (out_vertices.length + j) ∧
          out_vertices.length + j < out.out_vertices.length := by
  obtain ⟨st, hrun, hfin⟩ := ParseFile_some C _ _ _ _ _ _ hout
  have S := runLines_summary C transform _ _ _ hrun
  obtain ⟨app, hv, hi, -⟩ := S.appended
  obtain ⟨app2, hv2, hi2⟩ := noFacesFallback_appended C st
  obtain ⟨hfix, hoi, -⟩ := finish_some C st out hfin
  have hlen := noNormalsFallback_length C st _ _ hfix
  have hvl : out.out_vertices.length = out_vertices.length + (app.length + app2.length) := by
    rw [hlen, hv2, hv]
    simp only [initialState, List.length_append]
    omega
  have hidx : out.out_indices =
      out_indices ++ List.range' out_vertices.length (app.length + app2.length) := by
    rw [hoi, hi2, hi, hv]
    have := List.range'_append out_vertices.length app.length app2.length 1
    simp only [Nat.one_mul] at this
    simp only [initialState, List.length_append, List.append_assoc]
    rw [this, Nat.add_comm app2.length]
  refine ⟨app.length + app2.length, hvl, ?_, hidx, ?_⟩
  · rw [hidx]; simp
  · intro j hj
    refine ⟨?_, by omega⟩
    rw [hidx, List.getElem?_append_right (by omega), Nat.add_sub_cancel_left,
      List.getElem?_range' _ _ hj]
    simp


/-- C16, on a file with a triangle, a quad and a face of two corners, read into
buffers that hold three vertices: eleven vertices and the indices `3, ..., 13` are
appended. -/
theorem appended_indices_consecutive_witness :
    ParseFile intCollaborators allPathsFile () firstLoad.out_vertices firstLoad.out_indices
        none = some allPathsOutput ∧
    (∃ count, allPathsOutput.out_vertices.length = firstLoad.out_vertices.length + count ∧
      allPathsOutput.out_indices.length = firstLoad.out_indices.length + count ∧
      allPathsOutput.out_indices =
        firstLoad.out_indices ++ List.range' firstLoad.out_vertices.length count ∧
      ∀ j, j < count →
        allPathsOutput.out_indices[firstLoad.out_indices.length + j]? =
            some (firstLoad.out_vertices.length + j) ∧
          firstLoad.out_vertices.length + j < allPathsOutput.out_vertices.length) ∧
    allPathsOutput.out_vertices.length = 14 ∧
    allPathsOutput.out_indices = [0, 1, 2, 3, 4, 5, 6, 7, 8, 9, 10, 11, 12, 13] :=
  ⟨by decide,
    appended_indices_consecutive intCollaborators allPathsFile () firstLoad.out_vertices
      firstLoad.out_indices none allPathsOutput (by decide),
    by decide, by decide⟩

/-! ## Parsing into buffers that are not empty -/

theorem range'_raised (a s n : Nat) :
    (List.range' s n).map (fun index => index + a) = List.range' (a + s) n := by
  rw [← List.map_add_range' a s n 1]
  exact List.map_congr_left (fun x _ => Nat.add_comm x a)

theorem processLine_behindBuffers (C : Collaborators F M) (transform : M)
    (vertices : List (Vertex_PCUTBN F)) (indices : List Nat) (st : LoopState F)
    (line : List Char) :
    processLine C transform (behindBuffers vertices indices st) line =
      (processLine C transform st line).map (behindBuffers vertices indices) := by
  have hc : resolveAll C (behindBuffers vertices indices st)
      (readChunks (extractWord line).2) =
      resolveAll C st (readChunks (extractWord line).2) := by
    apply resolveAll_congr <;> rfl
  unfold processLine
  rw [processFace_eq, processFace_eq, hc]
  split_ifs
  · rfl
  · rfl
  · rfl
  · cases resolveAll C st (readChunks (extractWord line).2) with
    | none => rfl
    | some corners =>
      simp only [Option.map_some', behindBuffers, List.length_append, List.append_assoc,
        List.map_append, range'_raised, Option.some.injEq]
  · rfl

theorem runLines_behindBuffers (C : Collaborators F M) (transform : M)
    (vertices : List (Vertex_PCUTBN F)) (indices : List Nat) :
    ∀ (lines : List (List Char)) (st : LoopState F),
      runLines C transform (behindBuffers vertices indices st) lines =
        (runLines C transform st lines).map (behindBuffers vertices indices)
  | [], st => rfl
  | line :: lines, st => by
    simp only [runLines, processLine_behindBuffers]
    cases processLine C transform st line with
    | none => rfl
    | some st1 => exact runLines_behindBuffers C transform vertices indices lines st1

theorem noFacesFallback_behindBuffers (C : Collaborators F M)
    (vertices : List (Vertex_PCUTBN F)) (indices : List Nat) (st : LoopState F) :
    noFacesFallback C (behindBuffers vertices indices st) =
      (vertices ++ (noFacesFallback C st).1,
        indices ++ (noFacesFallback C st).2.map (fun index => index + vertices.length)) := by
  unfold noFacesFallback
  by_cases hf : st.hasNoFaces = true
  · have hf2 : (behindBuffers vertices indices st).hasNoFaces = true := hf
    simp only [hf, hf2, if_true, pointList_eq]
    simp only [behindBuffers, List.length_append, List.append_assoc, List.map_append,
      range'_raised]
  · have hf2 : ¬ (behindBuffers vertices indices st).hasNoFaces = true := hf
    simp only [hf, hf2, if_false]
    rfl

/-- C17. A file with at least one `vn` record: when `ParseFile`, called with empty
buffers, returns the vertices `vs` and the indices `is`, then, called with buffers
that hold `vs0` and `is0`, it returns the vertices `vs0 ++ vs` and the indices `is0`
followed by the indices `is`, each raised by the length of `vs0`. -/
theorem parse_into_buffers_concatenates (C : Collaborators F M) (fileString : List Char)
    (transform : M) (vertices : List (Vertex_PCUTBN F)) (indices : List Nat)
    (out_metaData : Option (OBJLoaderMetaData F)) (onEmpty : Output F)
    (hvn : 1 ≤ countRecords ['v', 'n'] fileString)
    (hempty : ParseFile C fileString transform [] [] out_metaData = some onEmpty) :
    ∃ out, ParseFile C fileString transform vertices indices out_metaData = some out ∧
      out.out_vertices = vertices ++ onEmpty.out_vertices ∧
      out.out_indices =
        indices ++ onEmpty.out_indices.map (fun index => index + vertices.length) := by
  obtain ⟨st, hrun, hfin⟩ := ParseFile_some C _ _ _ _ _ _ hempty
  have S := runLines_summary C transform _ _ _ hrun
  have hnn : st.hasNoNormals = false := by
    rw [S.noNormals, any_of_filter_length_pos _ _ hvn]; simp
  have hinit : initialState vertices indices out_metaData =
      behindBuffers vertices indices (initialState [] [] out_metaData) := by
    simp [behindBuffers, initialState]
  have hrun2 : runLines C transform (initialState vertices indices out_metaData)
      (getLines fileString) = some (behindBuffers vertices indices st) := by
    rw [hinit, runLines_behindBuffers, hrun]
    rfl
  obtain ⟨hfix, hoi, -⟩ := finish_some C st onEmpty hfin
  simp only [noNormalsFallback, hnn, Bool.false_eq_true, if_false, Option.some.injEq] at hfix
  have hnn2 : (behindBuffers vertices indices st).hasNoNormals = false := hnn
  cases hfin2 : finish C (behindBuffers vertices indices st) with
  | none =>
    simp [finish, noNormalsFallback, hnn2] at hfin2
  | some out =>
    obtain ⟨hfix2, hoi2, -⟩ := finish_some C _ out hfin2
    simp only [noNormalsFallback, hnn2, Bool.false_eq_true, if_false, Option.some.injEq,
      noFacesFallback_behindBuffers] at hfix2
    rw [noFacesFallback_behindBuffers] at hoi2
    refine ⟨out, by simp only [ParseFile, hrun2, hfin2], ?_, ?_⟩
    · rw [← hfix2, hfix]
    · rw [hoi2, hoi]


/-- C17, on a file with a normal record, a triangle, a quad and a face of two corners,
read into the buffers that `firstLoad` holds. -/
theorem parse_into_buffers_concatenates_witness :
    1 ≤ countRecords ['v', 'n'] allPathsFile ∧
    ParseFile intCollaborators allPathsFile () [] [] none = some allPathsOnEmpty ∧
    (∃ out, ParseFile intCollaborators allPathsFile () firstLoad.out_vertices
        firstLoad.out_indices none = some out ∧
      out.out_vertices = firstLoad.out_vertices ++ allPathsOnEmpty.out_vertices ∧
      out.out_indices = firstLoad.out_indices ++
        allPathsOnEmpty.out_indices.map (fun index => index + firstLoad.out_vertices.length)) ∧
    allPathsOnEmpty.out_indices = [0, 1, 2, 3, 4, 5, 6, 7, 8, 9, 10] ∧
    allPathsOutput.out_vertices = firstLoad.out_vertices ++ allPathsOnEmpty.out_vertices ∧
    allPathsOutput.out_indices = [0, 1, 2, 3, 4, 5, 6, 7, 8, 9, 10, 11, 12, 13] :=
  ⟨by decide, by decide,
    parse_into_buffers_concatenates intCollaborators allPathsFile ()
      firstLoad.out_vertices firstLoad.out_indices none allPathsOnEmpty (by decide)
      (by decide),
    by decide, by decide, by decide⟩

/-! ## Fields that are zero or negative -/

theorem getD_eq_of_getElem? {α : Type} (l : List α) (k : Nat) (a dflt : α)
    (h : l[k]? = some a) : l.getD k dflt = a := by
  simp [List.getD, h]

/-- An index is negative exactly when its field is not there or not positive. -/
theorem indexGroup_neg_of_unused (chunk : List Char) :
    (fieldUnused chunk 0 = true → (indexGroup chunk).1 < 0) ∧
      (fieldUnused chunk 1 = true → (indexGroup chunk).2.1 < 0) ∧
      (fieldUnused chunk 2 = true → (indexGroup chunk).2.2 < 0) := by
  have key : ∀ k, fieldUnused chunk k = true →
      (if (SplitStringOnDelimeter chunk '/').length > k then
        atoi ((SplitStringOnDelimeter chunk '/').getD k []) - 1 else (-1 : Int)) < 0 := by
    intro k hk
    unfold fieldUnused at hk
    by_cases hlen : (SplitStringOnDelimeter chunk '/').length > k
    · rw [if_pos hlen]
      have hget : (SplitStringOnDelimeter chunk '/')[k]? =
          some ((SplitStringOnDelimeter chunk '/')[k]) := List.getElem?_eq_getElem hlen
      rw [hget] at hk
      simp only [decide_eq_true_eq] at hk
      rw [getD_eq_of_getElem? _ _ _ _ hget]
      omega
    · rw [if_neg hlen]
      omega
  exact ⟨key 0, key 1, key 2⟩

theorem lookupOr_of_neg {α : Type} (list : List α) (index : Int) (dflt : α) (h : index < 0) :
    lookupOr list index dflt = some dflt := by
  have : ¬ index ≥ 0 := by omega
  simp [lookupOr, this]

/-- C18. A field of an index group whose integer value is zero or negative is treated
like a field that is not there. Its read is the default, whatever the list holds, so
that it is no lookup and cannot fail; and a face line whose other references are in
range is processed and counted, every corner is among the candidates of the face, and
the vertex of a corner has the position `(0,0,0)`, the UV `(0,0)`, the normal
`(1,0,0)` for a position, UV, normal field of that kind. -/
theorem nonpositive_fields_default (C : Collaborators F M) (transform : M)
    (st : LoopState F) (line : List Char) (hf : isRecord ['f'] line = true)
    (hrange : (faceChunks line).all (cornerInRange st.vertexPosList.length
      st.vertexUVList.length st.vertexNormalList.length) = true) :
    (∀ (chunk : List Char) (positions normals : List (Vec3 F)) (uvs : List (Vec2 F)),
      (fieldUnused chunk 0 = true →
        lookupOr positions (indexGroup chunk).1 ⟨C.zero, C.zero, C.zero⟩ =
          some ⟨C.zero, C.zero, C.zero⟩) ∧
      (fieldUnused chunk 1 = true →
        lookupOr uvs (indexGroup chunk).2.1 ⟨C.zero, C.zero⟩ = some ⟨C.zero, C.zero⟩) ∧
      (fieldUnused chunk 2 = true →
        lookupOr normals (indexGroup chunk).2.2 ⟨C.one, C.zero, C.zero⟩ =
          some ⟨C.one, C.zero, C.zero⟩)) ∧
    ∃ (st1 : LoopState F) (corners : List (Vertex_PCUTBN F)),
      processLine C transform st line = some st1 ∧
      st1.numFacesCounter = st.numFacesCounter + 1 ∧
      corners.length = (faceChunks line).length ∧
      st1.out_vertices = st.out_vertices ++ expandFace corners ∧
      ∀ (j : Nat) (chunk : List Char), (faceChunks line)[j]? = some chunk →
        ∃ corner, corners[j]? = some corner ∧ resolveCorner C st chunk = some corner ∧
          (fieldUnused chunk 0 = true → corner.m_position = ⟨C.zero, C.zero, C.zero⟩) ∧
          (fieldUnused chunk 1 = true → corner.m_uvTexCoords = ⟨C.zero, C.zero⟩) ∧
          (fieldUnused chunk 2 = true → corner.m_normal = ⟨C.one, C.zero, C.zero⟩) := by
  refine ⟨?_, ?_⟩
  · intro chunk positions normals uvs
    obtain ⟨h0, h1, h2⟩ := indexGroup_neg_of_unused chunk
    exact ⟨fun h => lookupOr_of_neg _ _ _ (h0 h), fun h => lookupOr_of_neg _ _ _ (h1 h),
      fun h => lookupOr_of_neg _ _ _ (h2 h)⟩
  · obtain ⟨corners, hres⟩ := resolveAll_isSome C st _ hrange
    have hlen := resolveAll_length C st _ _ hres
    have hstep := processLine_face C transform st line hf
    rw [processFace_eq] at hstep
    simp only [faceChunks] at hres hlen ⊢
    rw [hres, Option.map_some'] at hstep
    refine ⟨_, corners, hstep, rfl, hlen, rfl, ?_⟩
    intro j chunk hchunk
    have hr := resolveAll_getElem C st _ _ hres j chunk hchunk
    have hj : j < corners.length := by
      rw [hlen]
      exact (List.getElem?_eq_some.mp hchunk).1
    have hc : corners[j]? = some corners[j] := List.getElem?_eq_getElem hj
    rw [hc] at hr
    obtain ⟨hp, hu, hn, -⟩ := resolveCorner_fields C st chunk _ hr
    obtain ⟨h0, h1, h2⟩ := indexGroup_neg_of_unused chunk
    refine ⟨corners[j], hc, hr, ?_, ?_, ?_⟩
    · intro h
      rw [lookupOr_of_neg _ _ _ (h0 h), Option.some.injEq] at hp
      exact hp.symm
    · intro h
      rw [lookupOr_of_neg _ _ _ (h1 h), Option.some.injEq] at hu
      exact hu.symm
    · intro h
      rw [lookupOr_of_neg _ _ _ (h2 h), Option.some.injEq] at hn
      exact hn.symm


/-- C18, on the face line `f 0 -1/0/0 1//0` after one position: three vertices, the
first two at `(0,0,0)`, all with the UV `(0,0)` and the normal `(1,0,0)`. -/
theorem nonpositive_fields_default_witness :
    isRecord ['f'] unusedFieldsLine = true ∧
    (faceChunks unusedFieldsLine).all (cornerInRange onePositionState.vertexPosList.length
      onePositionState.vertexUVList.length onePositionState.vertexNormalList.length) = true ∧
    ((∀ (chunk : List Char) (positions normals : List (Vec3 Int)) (uvs : List (Vec2 Int)),
      (fieldUnused chunk 0 = true →
        lookupOr positions (indexGroup chunk).1
            ⟨intCollaborators.zero, intCollaborators.zero, intCollaborators.zero⟩ =
          some ⟨intCollaborators.zero, intCollaborators.zero, intCollaborators.zero⟩) ∧
      (fieldUnused chunk 1 = true →
        lookupOr uvs (indexGroup chunk).2.1 ⟨intCollaborators.zero, intCollaborators.zero⟩ =
          some ⟨intCollaborators.zero, intCollaborators.zero⟩) ∧
      (fieldUnused chunk 2 = true →
        lookupOr normals (indexGroup chunk).2.2
            ⟨intCollaborators.one, intCollaborators.zero, intCollaborators.zero⟩ =
          some ⟨intCollaborators.one, intCollaborators.zero, intCollaborators.zero⟩)) ∧
    ∃ (st1 : LoopState Int) (corners : List (Vertex_PCUTBN Int)),
      processLine intCollaborators () onePositionState unusedFieldsLine = some st1 ∧
      st1.numFacesCounter = onePositionState.numFacesCounter + 1 ∧
      corners.length = (faceChunks unusedFieldsLine).length ∧
      st1.out_vertices = onePositionState.out_vertices ++ expandFace corners ∧
      ∀ (j : Nat) (chunk : List Char), (faceChunks unusedFieldsLine)[j]? = some chunk →
        ∃ corner, corners[j]? = some corner ∧
          resolveCorner intCollaborators onePositionState chunk = some corner ∧
          (fieldUnused chunk 0 = true → corner.m_position =
            ⟨intCollaborators.zero, intCollaborators.zero, intCollaborators.zero⟩) ∧
          (fieldUnused chunk 1 = true → corner.m_uvTexCoords =
            ⟨intCollaborators.zero, intCollaborators.zero⟩) ∧
          (fieldUnused chunk 2 = true → corner.m_normal =
            ⟨intCollaborators.one, intCollaborators.zero, intCollaborators.zero⟩)) ∧
    (faceChunks unusedFieldsLine).map
        (fun chunk => (fieldUnused chunk 0, fieldUnused chunk 1, fieldUnused chunk 2)) =
      [(true, true, true), (true, true, true), (false, true, true)] ∧
    (processLine intCollaborators () onePositionState unusedFieldsLine).map
        (fun st1 => (st1.out_vertices, st1.out_indices, st1.numFacesCounter)) =
      some ([⟨⟨0, 0, 0⟩, ⟨1, 0, 0⟩, Rgba8.WHITE, ⟨0, 0⟩⟩,
             ⟨⟨0, 0, 0⟩, ⟨1, 0, 0⟩, Rgba8.WHITE, ⟨0, 0⟩⟩,
             ⟨⟨1, 2, 3⟩, ⟨1, 0, 0⟩, Rgba8.WHITE, ⟨0, 0⟩⟩], [0, 1, 2], 1) :=
  ⟨by decide, by decide,
    nonpositive_fields_default intCollaborators () onePositionState unusedFieldsLine
      (by decide) (by decide),
    by decide, by decide⟩

end OBJLoader
